import Mathlib

/-!
Verification of the cursor-aware command-line parser and the user registry of
the remote-shell repository (internal/terminal/utils.go and
internal/server/users/user_management.go), as a shallow embedding.

Go strings are byte-indexed; all inputs considered here are ASCII, so a line
is modelled as a `List Char` indexed by `Nat`.  Go `for` loops are modelled as
structural recursion on an explicit fuel argument; every wrapper passes
`line.length + 1`, which is always enough fuel since every loop advances its
index by at least one per iteration.  The cursor is a Go `int`, modelled as
`Int` (it may be negative); node offsets are `Nat`.
-/

namespace RemoteShell

/-- Characters of a raw line (Go string, ASCII). -/
abbrev Str := List Char

/-- Go map assignment `m[k] = v`, on a map modelled as an association list:
overwrite the binding if the key is present, otherwise append it. -/
def updateAssoc {β : Type} : List (Str × β) → Str → β → List (Str × β)
  | [], k, v => [(k, v)]
  | (k', v') :: rest, k, v =>
      if k' = k then (k, v) :: rest else (k', v') :: updateAssoc rest k v

/-- Go map lookup `m[k]` (`none` plays the role of `ok = false`). -/
def lookupAssoc {β : Type} : List (Str × β) → Str → Option β
  | [], _ => none
  | (k', v') :: rest, k => if k' = k then some v' else lookupAssoc rest k

/-- terminal.Argument (utils.go): a token together with its recorded span.
`stop` models the Go field `end` (a Lean keyword). -/
structure Argument where
  start : Nat := 0
  stop : Nat := 0
  value : Str := []
  deriving DecidableEq

/-- terminal.Cmd (utils.go). -/
structure Cmd where
  start : Nat := 0
  stop : Nat := 0
  value : Str := []
  deriving DecidableEq

/-- terminal.Flag (utils.go). -/
structure Flag where
  start : Nat := 0
  stop : Nat := 0
  value : Str := []
  Args : List Argument := []
  long : Bool := false
  deriving DecidableEq

/-- A value of the Go `Node` interface as it can end up in `ParsedLine.Focus`. -/
inductive Node where
  | flag (f : Flag)
  | arg (a : Argument)
  | cmd (c : Cmd)
  deriving DecidableEq

/-- terminal.ParsedLine (utils.go). -/
structure ParsedLine where
  FlagsOrdered : List Flag := []
  Flags : List (Str × Flag) := []
  Arguments : List Argument := []
  Focus : Option Node := none
  Section : Option Flag := none
  Command : Option Cmd := none
  RawLine : Str := []
  deriving DecidableEq

/-- The error conditions of the query API: `flagNotSet` is the package-level
`ErrFlagNotSet`, the other two are the `fmt.Errorf` conditions of
`ExpectArgs` and `GetArgString`. -/
inductive QueryErr where
  | flagNotSet
  | arityMismatch (flag : Str) (needs : Nat)
  | insufficientArguments (flag : Str)
  deriving DecidableEq

deriving instance DecidableEq for Except

/-- Flag.ArgValues (utils.go:61). -/
def Flag.ArgValues (f : Flag) : List Str := f.Args.map Argument.value

/-- ParsedLine.ArgumentsAsStrings (utils.go:82). -/
def ParsedLine.ArgumentsAsStrings (pl : ParsedLine) : List Str :=
  pl.Arguments.map Argument.value

/-- ParsedLine.IsSet (utils.go:89). -/
def ParsedLine.IsSet (pl : ParsedLine) (flag : Str) : Bool :=
  (lookupAssoc pl.Flags flag).isSome

/-- ParsedLine.ExpectArgs (utils.go:94). -/
def ParsedLine.ExpectArgs (pl : ParsedLine) (flag : Str) (needs : Nat) :
    Except QueryErr (List Argument) :=
  match lookupAssoc pl.Flags flag with
  | some f =>
      if f.Args.length ≠ needs then .error (.arityMismatch flag needs)
      else .ok f.Args
  | none => .error .flagNotSet

/-- ParsedLine.GetArgs (utils.go:105). -/
def ParsedLine.GetArgs (pl : ParsedLine) (flag : Str) :
    Except QueryErr (List Argument) :=
  match lookupAssoc pl.Flags flag with
  | some f => .ok f.Args
  | none => .error .flagNotSet

/-- ParsedLine.GetArgsString (utils.go:113). -/
def ParsedLine.GetArgsString (pl : ParsedLine) (flag : Str) :
    Except QueryErr (List Str) :=
  match lookupAssoc pl.Flags flag with
  | some f => .ok f.ArgValues
  | none => .error .flagNotSet

/-- ParsedLine.GetArg (utils.go:121): on success `ExpectArgs` returns a list
of length exactly 1, so `headD` never takes its default. -/
def ParsedLine.GetArg (pl : ParsedLine) (flag : Str) : Except QueryErr Argument :=
  match pl.ExpectArgs flag 1 with
  | .error e => .error e
  | .ok args => .ok (args.headD ⟨0, 0, []⟩)

/-- ParsedLine.GetArgString (utils.go:130): requires at least one argument and
returns the first. -/
def ParsedLine.GetArgString (pl : ParsedLine) (flag : Str) : Except QueryErr Str :=
  match lookupAssoc pl.Flags flag with
  | none => .error .flagNotSet
  | some f =>
      if f.Args.length = 0 then .error (.insufficientArguments flag)
      else .ok (f.Args.headD ⟨0, 0, []⟩).value

/-- Loop of parseFlag (utils.go:143): `e` is the Go loop variable `f.end`,
`endPos` the named return value (zero-initialised in Go).  Stops at the first
space; leading dashes are skipped while `linked` is true; on the first
non-dash character, `long` is set when at least two dashes preceded it. -/
def parseFlagLoop (line : Str) (startPos : Nat) :
    Nat → Nat → Bool → Str → Bool → Nat → Flag × Nat
  | 0, e, _linked, value, long, endPos => (⟨startPos, e, value, [], long⟩, endPos)
  | fuel + 1, e, linked, value, long, endPos =>
      if e < line.length then
        let c := line.getD e ' '
        if c = ' ' then (⟨startPos, e, value, [], long⟩, e)
        else if c = '-' ∧ linked = true then
          parseFlagLoop line startPos fuel (e + 1) linked value long e
        else
          parseFlagLoop line startPos fuel (e + 1) false (value ++ [c])
            (if 1 < e - startPos ∧ linked = true then true else long) e
      else (⟨startPos, e, value, [], long⟩, endPos)

/-- terminal.parseFlag (utils.go:143). -/
def parseFlag (line : Str) (startPos : Nat) : Flag × Nat :=
  parseFlagLoop line startPos (line.length + 1) startPos true [] false 0

/-- Loop of parseSingleArg (utils.go:170); same shape as `parseFlagLoop`
without the dash handling. -/
def parseSingleArgLoop (line : Str) (startPos : Nat) :
    Nat → Nat → Str → Nat → Argument × Nat
  | 0, e, value, endPos => (⟨startPos, e, value⟩, endPos)
  | fuel + 1, e, value, endPos =>
      if e < line.length then
        let c := line.getD e ' '
        if c = ' ' then (⟨startPos, e, value⟩, e)
        else parseSingleArgLoop line startPos fuel (e + 1) (value ++ [c]) e
      else (⟨startPos, e, value⟩, endPos)

/-- terminal.parseSingleArg (utils.go:170). -/
def parseSingleArg (line : Str) (startPos : Nat) : Argument × Nat :=
  parseSingleArgLoop line startPos (line.length + 1) startPos [] 0

/-- Loop of parseArgs (utils.go:187): `p` is the Go loop variable `endPos`
(re-assigned by `parseSingleArg` and incremented by the loop); empty tokens
are dropped, and the run stops early when the character after the consumed
token begins a new flag. -/
def parseArgsLoop (line : Str) : Nat → Nat → List Argument → List Argument × Nat
  | 0, p, args => (args, p)
  | fuel + 1, p, args =>
      if p < line.length then
        let ar := parseSingleArg line p
        let args' := if ar.1.value.length ≠ 0 then args ++ [ar.1] else args
        if ar.2 ≠ line.length - 1 ∧ line.getD (ar.2 + 1) ' ' = '-' then (args', ar.2)
        else parseArgsLoop line fuel (ar.2 + 1) args'
      else (args, p)

/-- terminal.parseArgs (utils.go:187). -/
def parseArgs (line : Str) (startPos : Nat) : List Argument × Nat :=
  parseArgsLoop line (line.length + 1) startPos []

/-- Focus as tracked during the scan loop.  `captureRef` models the Go
pointer `pl.Focus = &newFlag` while `newFlag` is still the capturing flag:
the pointed-to flag may still receive `Args`, so the alias is resolved to a
snapshot only when the capturing flag is flushed (after which Go never
mutates it again). -/
inductive NodeRef where
  | flagSnap (f : Flag)
  | argSnap (a : Argument)
  | captureRef
  deriving DecidableEq

/-- Section as tracked during the scan loop; `captureRef` as in `NodeRef`
(the Go statements `pl.Section = &newFlag` and `pl.Section = capture`). -/
inductive SectionRef where
  | snap (f : Flag)
  | captureRef
  deriving DecidableEq

/-- The cursor-independent portion of ParseLine's scan state: the aggregate
lists plus the currently capturing flag (Go `capture *Flag`, held by value). -/
structure Core where
  FlagsOrdered : List Flag := []
  Flags : List (Str × Flag) := []
  Arguments : List Argument := []
  capture : Option Flag := none
  deriving DecidableEq

/-- The cursor-dependent portion of ParseLine's scan state. -/
structure FocusSt where
  Focus : Option NodeRef := none
  SectionR : Option SectionRef := none
  deriving DecidableEq

/-- utils.go:215-218 and 276-279: flush the capturing flag into the flag map
and the ordered list. -/
def flushCore (c : Core) : Core :=
  match c.capture with
  | none => c
  | some cap =>
      { c with Flags := updateAssoc c.Flags cap.value cap,
               FlagsOrdered := c.FlagsOrdered ++ [cap],
               capture := none }

/-- A flushed capturing flag is never mutated again, so any `captureRef`
alias held by Focus or Section now resolves to the flushed value. -/
def flushFocus (cap : Option Flag) (fs : FocusSt) : FocusSt :=
  match cap with
  | none => fs
  | some cap =>
      { Focus :=
          match fs.Focus with
          | some .captureRef => some (.flagSnap cap)
          | other => other,
        SectionR :=
          match fs.SectionR with
          | some .captureRef => some (.snap cap)
          | other => other }

/-- utils.go:261-267: for each scanned argument whose span contains the
cursor, focus that argument and point Section at the capturing flag; when no
flag is capturing, `pl.Section = capture` resets Section to nil. -/
def focusScan (cursor : Int) (hasCapture : Bool) :
    List Argument → FocusSt → FocusSt
  | [], fs => fs
  | a :: rest, fs =>
      if (a.start : Int) ≤ cursor ∧ cursor ≤ (a.stop : Int) then
        focusScan cursor hasCapture rest
          ⟨some (.argSnap a), if hasCapture then some .captureRef else none⟩
      else focusScan cursor hasCapture rest fs

/-- utils.go:243-252: a multi-character short bundle expands into one Flag
per character, all sharing the bundle's start and the post-scan index `r`
(the Go variable `i` after `parseFlag` returned). -/
def bundleFlags (f : Flag) (r : Nat) : List Flag :=
  f.value.map fun ch => { start := f.start, stop := r, value := [ch] }

/-- Push a list of flags into both the map and the ordered list, one by one
(the loop body of utils.go:243-252). -/
def pushFlags (c : Core) (l : List Flag) : Core :=
  l.foldl
    (fun c f =>
      { c with Flags := updateAssoc c.Flags f.value f,
               FlagsOrdered := c.FlagsOrdered ++ [f] })
    c

/-- utils.go:269-272: if a flag is currently capturing, the scanned argument
run becomes its children (`capture.Args = args`); the run was already
appended to the top-level Arguments either way. -/
def captureArgs (c : Core) (args : List Argument) : Core :=
  match c.capture with
  | some cap => { c with capture := some { cap with Args := args } }
  | none => c

/-- The scan loop of ParseLine (utils.go:212-274).  `i` is the loop index;
one recursive call is one loop iteration (ending in the Go `i++`). -/
def parseLoop (line : Str) (cursor : Int) :
    Nat → Nat → Core → FocusSt → Core × FocusSt
  | 0, _i, c, fs => (c, fs)
  | fuel + 1, i, c, fs =>
      if i < line.length then
        if line.getD i ' ' = '-' then
          let c1 := flushCore c
          let fs1 := flushFocus c.capture fs
          let pf := parseFlag line i
          let newFlag := pf.1
          let r := pf.2
          let willCapture := newFlag.long = true ∨ newFlag.value.length = 1
          let fs2 :=
            if (newFlag.start : Int) ≤ cursor ∧ cursor ≤ (newFlag.stop : Int) then
              if willCapture then (⟨some .captureRef, some .captureRef⟩ : FocusSt)
              else ⟨some (.flagSnap newFlag), some (.snap newFlag)⟩
            else fs1
          if willCapture then
            parseLoop line cursor fuel (r + 1) { c1 with capture := some newFlag } fs2
          else
            parseLoop line cursor fuel (r + 1)
              { pushFlags c1 (bundleFlags newFlag r) with capture := none } fs2
        else
          let pa := parseArgs line i
          let args := pa.1
          let r := pa.2
          let c1 := { c with Arguments := c.Arguments ++ args }
          let fs1 := focusScan cursor c.capture.isSome args fs
          parseLoop line cursor fuel (r + 1) (captureArgs c1 args) fs1
      else (c, fs)

/-- utils.go:283-295: walk the ordered flags from last to first.  `some
(true, f)` is the unconditional `pl.Section = &pl.FlagsOrdered[i]` on exact
containment; `some (false, f)` is `closestLeft`; flags ending after the
cursor are skipped. -/
def sectionWalk (cursor : Int) : List Flag → Option (Bool × Flag)
  | [] => none
  | f :: rest =>
      if (f.start : Int) ≤ cursor ∧ cursor ≤ (f.stop : Int) then some (true, f)
      else if cursor < (f.stop : Int) then sectionWalk cursor rest
      else some (false, f)

/-- Resolve the tracked Focus once the scan is over (after the final flush no
`captureRef` alias can remain, see `flushFocus`). -/
def resolveFocus : Option NodeRef → Option Node
  | some (.flagSnap f) => some (.flag f)
  | some (.argSnap a) => some (.arg a)
  | some .captureRef => none
  | none => none

/-- Resolve the tracked Section once the scan is over. -/
def resolveSection : Option SectionRef → Option Flag
  | some (.snap f) => some f
  | some .captureRef => none
  | none => none

/-- terminal.ParseLine (utils.go:206-316): the scan loop, the final flush,
the backward Section walk, and the Command promotion (`pl.Command` is still
nil at utils.go:301, so the promotion runs whenever `Arguments` is
non-empty). -/
def ParseLine (line : Str) (cursorPosition : Int) : ParsedLine :=
  let lp := parseLoop line cursorPosition (line.length + 1) 0 {} {}
  let cEnd := flushCore lp.1
  let fsEnd := flushFocus lp.1.capture lp.2
  let sec0 := resolveSection fsEnd.SectionR
  let sec :=
    match sectionWalk cursorPosition cEnd.FlagsOrdered.reverse with
    | some (true, f) => some f
    | some (false, f) => if sec0 = none then some f else sec0
    | none => sec0
  let focus0 := resolveFocus fsEnd.Focus
  match cEnd.Arguments with
  | [] =>
      { FlagsOrdered := cEnd.FlagsOrdered, Flags := cEnd.Flags, Arguments := [],
        Focus := focus0, Section := sec, Command := none, RawLine := line }
  | a :: rest =>
      let cmd : Cmd := ⟨a.start, a.stop, a.value⟩
      { FlagsOrdered := cEnd.FlagsOrdered, Flags := cEnd.Flags, Arguments := rest,
        Focus :=
          if (cmd.start : Int) ≤ cursorPosition ∧ cursorPosition ≤ (cmd.stop : Int)
          then some (.cmd cmd) else focus0,
        Section := sec, Command := some cmd, RawLine := line }

/-- users.User (user_management.go).  The ssh connection, channel and request
values are abstract type parameters; `none` models a nil Go interface value.
`AddUser` fills only `IdString` and `ServerConnection`, the rest keep their
zero values. -/
structure User (Conn Channel Req : Type) where
  IdString : Str
  ServerConnection : Option Conn := none
  ShellConnection : Option Channel := none
  ShellRequests : Option Req := none
  ProxyConnection : Option Conn := none
  PtyReq : Option Req := none
  LastWindowChange : Option Req := none

/-- users.ErrNilServerConnection (user_management.go:14). -/
inductive UsersErr where
  | errNilServerConnection
  deriving DecidableEq

/-- users.AddUser (user_management.go:30): returns the Go pair `(us, err)`
together with the updated `allUsers` registry (the package-global map passed
explicitly; the mutex only serialises access to it). -/
def AddUser {Conn Channel Req : Type}
    (allUsers : List (Str × User Conn Channel Req)) (idStr : Str)
    (ServerConnection : Option Conn) :
    (Option (User Conn Channel Req) × Option UsersErr) ×
      List (Str × User Conn Channel Req) :=
  match ServerConnection with
  | none => ((none, some .errNilServerConnection), allUsers)
  | some conn =>
      let us : User Conn Channel Req :=
        { IdString := idStr, ServerConnection := some conn }
      ((some us, none), updateAssoc allUsers idStr us)

/-- The whitespace-delimited tokens of a line (the accounting domain of the
token-conservation claim). -/
def tokensOf : Str → Str → List Str
  | [], cur => if cur = [] then [] else [cur]
  | ch :: rest, cur =>
      if ch = ' ' then
        if cur = [] then tokensOf rest [] else cur :: tokensOf rest []
      else tokensOf rest (cur ++ [ch])

/-- All whitespace-delimited tokens of a line. -/
def tokens (line : Str) : List Str := tokensOf line []

/-- The token-conservation claim's accounting total:
`len(Command != nil ? 1 : 0) + len(Arguments) + sum(len(Flag.Args))`. -/
def tokenAccount (pl : ParsedLine) : Nat :=
  (if pl.Command.isSome then 1 else 0) + pl.Arguments.length
    + (pl.FlagsOrdered.map fun f => f.Args.length).sum

/-- Length of the run of `-` characters starting at position `p`. -/
def dashRun (line : Str) (p : Nat) : Nat :=
  ((line.drop p).takeWhile fun ch => ch = '-').length

/-- The whitespace-delimited token starting at position `p`: the maximal
space-free run of characters. -/
def tokenAt (line : Str) (p : Nat) : Str :=
  (line.drop p).takeWhile fun ch => ch ≠ ' '

/-- The cursor lies within a flag's inclusive span (the containment test of
utils.go:222, 262, 284, 307). -/
def flagContains (cursor : Int) (f : Flag) : Prop :=
  (f.start : Int) ≤ cursor ∧ cursor ≤ (f.stop : Int)

instance (cursor : Int) (f : Flag) : Decidable (flagContains cursor f) := by
  unfold flagContains; infer_instance

/-- The cursor lies within an argument's inclusive span. -/
def argContains (cursor : Int) (a : Argument) : Prop :=
  (a.start : Int) ≤ cursor ∧ cursor ≤ (a.stop : Int)

instance (cursor : Int) (a : Argument) : Decidable (argContains cursor a) := by
  unfold argContains; infer_instance

/-- Textual order of flags as produced by the scan: either `f`'s token ends
strictly before `g`'s begins, or both come from the same bundle and share
the bundle's span. -/
def flagBefore (f g : Flag) : Prop :=
  f.stop < g.start ∨ (f.start = g.start ∧ f.stop = g.stop)

/-- Every flag object held by the scan state: the flushed ones plus the
currently capturing one. -/
def flagsAll (c : Core) : List Flag :=
  c.FlagsOrdered ++ c.capture.toList

/-- Modelled from the claim's words: "the nearest flag whose end is at or
before the cursor" — the last flag in FlagsOrdered (textual order) whose
end offset does not exceed the cursor; compared below against the parser's
backward walk. -/
def closestLeftSpec (cursor : Int) : List Flag → Option Flag
  | [] => none
  | f :: rest =>
      match closestLeftSpec cursor rest with
      | some g => some g
      | none => if (f.stop : Int) ≤ cursor then some f else none

/-- Invariant of the scan loop relating the state at loop index `i` to the
cursor's Section tracking.  The positional clauses say every recorded span
lies strictly left of `i` (except a capturing flag whose token ran to the
end of the line), `capNext` records that a capturing flag that has already
received arguments is only ever current when the scan stands at a dash or at
the end of the line, `ordered`/`sep` give textual ordering and flag/argument
disjointness, and the `sec*`/`focus*` clauses characterise the tracked
Section: a hit inside a flag-owned argument pins Section to that flag (or to
the capture alias), a hit inside an unowned top-level argument has reset it
to nil, and while Focus is still unset no containment event has fired at
all, so Section is unset and no recorded flag span contains the cursor. -/
structure ScanInv (line : Str) (cursor : Int) (i : Nat) (c : Core)
    (fs : FocusSt) : Prop where
  ordStop : ∀ f ∈ c.FlagsOrdered, f.stop < i
  ordArgs : ∀ f ∈ c.FlagsOrdered, ∀ a ∈ f.Args, a.stop < i
  argStop : ∀ a ∈ c.Arguments, a.stop < i
  capOrd : ∀ cap, c.capture = some cap → ∀ f ∈ c.FlagsOrdered, f.stop < cap.start
  capArgs : ∀ cap, c.capture = some cap → ∀ a ∈ cap.Args, a.stop < i
  capStop : ∀ cap, c.capture = some cap →
    cap.stop < i ∨ (cap.stop = line.length ∧ line.length ≤ i)
  capNext : ∀ cap, c.capture = some cap → cap.Args ≠ [] →
    line.length ≤ i ∨ line.getD i ' ' = '-'
  ordered : List.Pairwise flagBefore c.FlagsOrdered
  sep : ∀ g ∈ flagsAll c, ∀ f ∈ flagsAll c, ∀ a ∈ f.Args,
    g.stop < a.start ∨ a.stop < g.start
  secOrd : ∀ f ∈ c.FlagsOrdered, ∀ a ∈ f.Args, argContains cursor a →
    fs.SectionR = some (.snap f)
  secCap : ∀ cap, c.capture = some cap → ∀ a ∈ cap.Args,
    argContains cursor a → fs.SectionR = some .captureRef
  secTop : ∀ a ∈ c.Arguments, argContains cursor a →
    (∀ f ∈ flagsAll c, a ∉ f.Args) → fs.SectionR = none
  focusSec : fs.Focus = none → fs.SectionR = none
  focusFlags : fs.Focus = none → ∀ f ∈ flagsAll c, ¬ flagContains cursor f
  focusCapRef : fs.Focus = some .captureRef → c.capture.isSome = true

/-- The part of `ScanInv` that survives to the end of the scan (the clauses
not tied to the loop index). -/
structure ExitInv (line : Str) (cursor : Int) (c : Core) (fs : FocusSt) :
    Prop where
  capOrd : ∀ cap, c.capture = some cap → ∀ f ∈ c.FlagsOrdered, f.stop < cap.start
  ordered : List.Pairwise flagBefore c.FlagsOrdered
  sep : ∀ g ∈ flagsAll c, ∀ f ∈ flagsAll c, ∀ a ∈ f.Args,
    g.stop < a.start ∨ a.stop < g.start
  secOrd : ∀ f ∈ c.FlagsOrdered, ∀ a ∈ f.Args, argContains cursor a →
    fs.SectionR = some (.snap f)
  secCap : ∀ cap, c.capture = some cap → ∀ a ∈ cap.Args,
    argContains cursor a → fs.SectionR = some .captureRef
  secTop : ∀ a ∈ c.Arguments, argContains cursor a →
    (∀ f ∈ flagsAll c, a ∉ f.Args) → fs.SectionR = none
  focusSec : fs.Focus = none → fs.SectionR = none
  focusFlags : fs.Focus = none → ∀ f ∈ flagsAll c, ¬ flagContains cursor f
  focusCapRef : fs.Focus = some .captureRef → c.capture.isSome = true

/-- Span bounds for an argument node over a line of length `n`: inclusive
offsets with `start ≤ end` and `end ≤ n` (`Nat` offsets are nonnegative). -/
def argB (n : Nat) (a : Argument) : Prop := a.start ≤ a.stop ∧ a.stop ≤ n

/-- Span bounds for a flag node, including all its owned arguments. -/
def flagB (n : Nat) (f : Flag) : Prop :=
  f.start ≤ f.stop ∧ f.stop ≤ n ∧ ∀ a ∈ f.Args, argB n a

/-- Span bounds for every node reachable from the scan state. -/
def coreB (n : Nat) (c : Core) : Prop :=
  (∀ f ∈ c.FlagsOrdered, flagB n f) ∧ (∀ kv ∈ c.Flags, flagB n kv.2) ∧
  (∀ a ∈ c.Arguments, argB n a) ∧ ∀ f, c.capture = some f → flagB n f

/-- The cursor influences only the Focus/Section tracking: the `Core` result
of the scan loop (flags, arguments, capture) is the same for any two cursor
values and any two focus states. -/
theorem parseLoop_core_eq (line : Str) (cu1 cu2 : Int) :
    ∀ fuel i c fs1 fs2,
      (parseLoop line cu1 fuel i c fs1).1 = (parseLoop line cu2 fuel i c fs2).1 := by
  intro fuel
  induction fuel with
  | zero => intro i c fs1 fs2; rfl
  | succ n ih =>
      intro i c fs1 fs2
      simp only [parseLoop]
      by_cases h1 : i < line.length
      · simp only [if_pos h1]
        by_cases h2 : line.getD i ' ' = '-'
        · simp only [if_pos h2]
          by_cases h3 : (parseFlag line i).1.long = true ∨
              (parseFlag line i).1.value.length = 1
          · simp only [if_pos h3]
            exact ih _ _ _ _
          · simp only [if_neg h3]
            exact ih _ _ _ _
        · simp only [if_neg h2]
          exact ih _ _ _ _
      · simp only [if_neg h1]

/-- The cursor-independent fields of a full parse: FlagsOrdered, Flags,
Arguments and Command do not depend on the cursor. -/
theorem ParseLine_core_eq (line : Str) (cu1 cu2 : Int) :
    (ParseLine line cu1).FlagsOrdered = (ParseLine line cu2).FlagsOrdered ∧
    (ParseLine line cu1).Flags = (ParseLine line cu2).Flags ∧
    (ParseLine line cu1).Arguments = (ParseLine line cu2).Arguments ∧
    (ParseLine line cu1).Command = (ParseLine line cu2).Command := by
  have h := parseLoop_core_eq line cu1 cu2 (line.length + 1) 0 {} {} {}
  simp only [ParseLine]
  rw [h]
  rcases hA : (flushCore (parseLoop line cu2 (line.length + 1) 0 {} {}).1).Arguments
    with _ | ⟨a, rest⟩ <;> simp [hA]

/-- Claim C4: ParseLine is a total, terminating function: it is defined by
structural recursion, so every input string and cursor value yields some
ParsedLine; and the empty line yields empty Arguments and Flags, no Command
and no Focus (and no Section), for every cursor. -/
theorem C4_parse_total :
    (∀ (line : Str) (cursor : Int), ∃ pl : ParsedLine, ParseLine line cursor = pl) ∧
    ∀ cursor : Int,
      ParseLine [] cursor =
        { FlagsOrdered := [], Flags := [], Arguments := [], Focus := none,
          Section := none, Command := none, RawLine := [] } :=
  ⟨fun _ _ => ⟨_, rfl⟩, fun _ => rfl⟩

/-- Claim C1 counterexample: for the line "-l a b" the accounting total
`(Command ? 1 : 0) + len(Arguments) + sum(len(Flag.Args))` is 4 while the
line has 3 whitespace-delimited tokens, so no input token is accounted for
exactly once: the captured run ["a", "b"] stays in the top-level Arguments
(whence "a" is promoted to Command) in addition to being owned by flag "l". -/
theorem C1_counterexample :
    tokenAccount (ParseLine ("-l a b").toList 0) = 4 ∧
    (tokens ("-l a b").toList).length = 3 ∧
    tokenAccount (ParseLine ("-l a b").toList 0) ≠ (tokens ("-l a b").toList).length ∧
    (lookupAssoc (ParseLine ("-l a b").toList 0).Flags ['l']).map Flag.ArgValues =
      some [['a'], ['b']] ∧
    (ParseLine ("-l a b").toList 0).Arguments.map Argument.value = [['b']] ∧
    (ParseLine ("-l a b").toList 0).Command.map Cmd.value = some ['a'] := by
  decide

/-- Claim C1 amended: an argument run following a capturing flag becomes the
flag's children AND stays in the top-level Arguments list (from which the
first entry is then promoted to Command), so captured tokens are accounted
twice while flag tokens are not accounted at all.  For "-l a b" and any
cursor: Command is "a", Arguments is ["b"], flag "l" owns ["a", "b"], and
the accounting total is 4 against the line's 3 tokens. -/
theorem C1_amended (cursor : Int) :
    (ParseLine ("-l a b").toList cursor).Command.map Cmd.value = some ['a'] ∧
    (ParseLine ("-l a b").toList cursor).Arguments =
      [{ start := 5, stop := 6, value := ['b'] }] ∧
    (lookupAssoc (ParseLine ("-l a b").toList cursor).Flags ['l']).map Flag.ArgValues =
      some [['a'], ['b']] ∧
    tokenAccount (ParseLine ("-l a b").toList cursor) = 4 ∧
    (tokens ("-l a b").toList).length = 3 := by
  obtain ⟨h1, h2, h3, h4⟩ := ParseLine_core_eq ("-l a b").toList cursor 0
  refine ⟨?_, ?_, ?_, ?_, by decide⟩
  · rw [h4]; decide
  · rw [h3]; decide
  · rw [h2]; decide
  · simp only [tokenAccount]
    rw [h1, h3, h4]
    decide

/-- Claim C2 counterexample: scanning the flag token "-ab" produces a dash-stripped
value "ab" of length 2, yet `long = false` — refuting both "dash-stripped
value longer than one character implies long" and "long = false only for a
single-character value". -/
theorem C2_counterexample :
    (parseFlag ("-ab").toList 0).1.value = ['a', 'b'] ∧
    1 < (parseFlag ("-ab").toList 0).1.value.length ∧
    (parseFlag ("-ab").toList 0).1.long = false := by
  decide

/-- The dash run is empty at or past the end of the line. -/
theorem dashRun_of_le (line : Str) (p : Nat) (h : line.length ≤ p) :
    dashRun line p = 0 := by
  simp [dashRun, List.drop_eq_nil_of_le h]

/-- The dash run is empty when the character at `p` is not a dash. -/
theorem dashRun_of_ne (line : Str) (p : Nat) (h : p < line.length)
    (hc : line.getD p ' ' ≠ '-') : dashRun line p = 0 := by
  rw [List.getD_eq_getElem line ' ' h] at hc
  unfold dashRun
  rw [List.drop_eq_getElem_cons h, List.takeWhile_cons]
  simp [hc]

/-- The dash run counts a dash at `p` and continues at `p + 1`. -/
theorem dashRun_succ (line : Str) (p : Nat) (h : p < line.length)
    (hc : line.getD p ' ' = '-') : dashRun line p = dashRun line (p + 1) + 1 := by
  rw [List.getD_eq_getElem line ' ' h] at hc
  unfold dashRun
  rw [List.drop_eq_getElem_cons h, List.takeWhile_cons]
  simp [hc]

/-- Once `linked` is false, the `long` field can no longer change: the flag
scanner returns whatever `long` value it has accumulated. -/
theorem parseFlagLoop_frozen (line : Str) (p : Nat) :
    ∀ fuel e v lg ep, (parseFlagLoop line p fuel e false v lg ep).1.long = lg := by
  intro fuel
  induction fuel with
  | zero => intro e v lg ep; rfl
  | succ n ih =>
      intro e v lg ep
      by_cases h1 : e < line.length
      · by_cases h2 : line.getD e ' ' = ' '
        · rw [List.getD_eq_getElem line ' ' h1] at h2
          simp [parseFlagLoop, h1, h2]
        · rw [List.getD_eq_getElem line ' ' h1] at h2
          simp [parseFlagLoop, h1, h2, ih]
      · simp [parseFlagLoop, h1]

/-- In the dash-skipping phase (`linked` still true, `long` still false),
the scanner ends with `long = true` exactly when the first non-dash
character after `e` exists, is not a space, and lies more than one position
after the flag's start `p`. -/
theorem parseFlagLoop_linked (line : Str) (p : Nat) :
    ∀ fuel e v ep, line.length < e + fuel →
      ((parseFlagLoop line p fuel e true v false ep).1.long = true ↔
        (1 < e + dashRun line e - p ∧ e + dashRun line e < line.length ∧
          line.getD (e + dashRun line e) ' ' ≠ ' ')) := by
  intro fuel
  induction fuel with
  | zero =>
      intro e v ep hfuel
      have he : line.length ≤ e := by omega
      rw [dashRun_of_le line e he]
      simp only [parseFlagLoop]
      constructor
      · intro h; exact absurd h (by decide)
      · rintro ⟨-, h2, -⟩; omega
  | succ n ih =>
      intro e v ep hfuel
      by_cases h1 : e < line.length
      · by_cases h2 : line.getD e ' ' = ' '
        · have hd : dashRun line e = 0 := dashRun_of_ne line e h1 (by rw [h2]; decide)
          rw [List.getD_eq_getElem line ' ' h1] at h2
          simp [parseFlagLoop, h1, h2, hd]
        · by_cases h3 : line.getD e ' ' = '-'
          · have hds := dashRun_succ line e h1 h3
            have hrec := ih (e + 1) v e (by omega)
            have harith : e + 1 + dashRun line (e + 1) = e + dashRun line e := by omega
            rw [List.getD_eq_getElem line ' ' h1] at h3
            rw [← harith]
            simp [parseFlagLoop, h1, h3, hrec]
          · have hd : dashRun line e = 0 := dashRun_of_ne line e h1 h3
            rw [List.getD_eq_getElem line ' ' h1] at h2 h3
            simp [parseFlagLoop, h1, h2, h3, hd, parseFlagLoop_frozen]
      · have he : line.length ≤ e := by omega
        rw [dashRun_of_le line e he]
        simp only [parseFlagLoop, if_neg h1]
        constructor
        · intro h; exact absurd h (by decide)
        · rintro ⟨-, h2, -⟩; omega

/-- The dash prefix of the token at `p` is the dash run at `p`: the leading
dashes of the space-free run are exactly the leading dashes of the line at
`p` (a dash is never a space). -/
theorem token_dash_head (line : Str) (p : Nat) :
    ((tokenAt line p).takeWhile fun ch => ch = '-') =
      (line.drop p).takeWhile fun ch => ch = '-' := by
  unfold tokenAt
  rw [List.takeWhile_takeWhile]
  congr 1
  funext a
  by_cases h : a = '-' <;> simp [h]

/-- The dash prefix of a list is shorter than its space-free prefix exactly
when the character right after the dashes exists and is not a space. -/
theorem dash_prefix_lt_token (l : Str) :
    ((l.takeWhile fun ch => ch = '-').length <
        (l.takeWhile fun ch => ch ≠ ' ').length) ↔
      ((l.takeWhile fun ch => ch = '-').length < l.length ∧
        l.getD ((l.takeWhile fun ch => ch = '-').length) ' ' ≠ ' ') := by
  induction l with
  | nil => simp
  | cons c t ih =>
      by_cases hc : c = '-'
      · subst hc
        simpa [List.takeWhile_cons, List.getD_cons_succ] using ih
      · by_cases hs : c = ' '
        · subst hs
          simp [List.takeWhile_cons]
        · simp [List.takeWhile_cons, hc, hs]

/-- Positional reading of "the token at `p` is longer than its dash prefix":
the first character after the dash run exists and is not a space. -/
theorem dashRun_lt_token (line : Str) (p : Nat) :
    (dashRun line p < (tokenAt line p).length) ↔
      (p + dashRun line p < line.length ∧
        line.getD (p + dashRun line p) ' ' ≠ ' ') := by
  have hget : (line.drop p).getD (dashRun line p) ' ' =
      line.getD (p + dashRun line p) ' ' := by
    rw [List.getD_eq_getElem?_getD, List.getD_eq_getElem?_getD, List.getElem?_drop]
  have hlen : (line.drop p).length = line.length - p := by simp
  unfold dashRun tokenAt
  rw [dash_prefix_lt_token (line.drop p)]
  unfold dashRun at hget
  rw [hget, hlen]
  constructor
  · rintro ⟨h1, h2⟩; exact ⟨by omega, h2⟩
  · rintro ⟨h1, h2⟩; exact ⟨by omega, h2⟩

/-- Claim C2 amended: the scanned flag has `long = true` exactly when its token
begins with two or more dashes that are followed, before any space or the
end of the line, by a further character — equivalently (second conjunct, in
the claim's token vocabulary) exactly when the whitespace-delimited token at
`p` has a dash prefix of length at least two that is shorter than the whole
token.  The length of the dash-stripped value plays no role ("-ab" yields
`long = false` and is treated as a bundle, "--" alone yields
`long = false`). -/
theorem C2_amended (line : Str) (p : Nat) :
    ((parseFlag line p).1.long = true ↔
      (2 ≤ dashRun line p ∧ p + dashRun line p < line.length ∧
        line.getD (p + dashRun line p) ' ' ≠ ' ')) ∧
    ((parseFlag line p).1.long = true ↔
      (2 ≤ ((tokenAt line p).takeWhile fun ch => ch = '-').length ∧
        ((tokenAt line p).takeWhile fun ch => ch = '-').length <
          (tokenAt line p).length)) := by
  have hmain : (parseFlag line p).1.long = true ↔
      (2 ≤ dashRun line p ∧ p + dashRun line p < line.length ∧
        line.getD (p + dashRun line p) ' ' ≠ ' ') := by
    have h := parseFlagLoop_linked line p (line.length + 1) p [] 0 (by omega)
    simp only [parseFlag]
    rw [h]
    constructor
    · rintro ⟨h1, h2, h3⟩; exact ⟨by omega, h2, h3⟩
    · rintro ⟨h1, h2, h3⟩; exact ⟨by omega, h2, h3⟩
  refine ⟨hmain, ?_⟩
  rw [token_dash_head line p]
  show (parseFlag line p).1.long = true ↔
    (2 ≤ dashRun line p ∧ dashRun line p < (tokenAt line p).length)
  rw [hmain, dashRun_lt_token line p]

/-- Claim C3 counterexample: for the input "-aft value" the token "value" does not
appear in the top-level Arguments list — Arguments is empty, because "value"
is promoted to the Command. -/
theorem C3_counterexample :
    (ParseLine ("-aft value").toList 0).Arguments = [] ∧
    (ParseLine ("-aft value").toList 0).Command =
      some { start := 5, stop := 10, value := "value".toList } := by
  decide

/-- Claim C3 amended: for "-aft value" and any cursor, the bundle expands into
exactly three flags "a", "f", "t" sharing the span [0, 4], none owning any
argument; but "value" is promoted to the Command (the first unclaimed
top-level argument), leaving the top-level Arguments empty, rather than
remaining in Arguments. -/
theorem C3_amended (cursor : Int) :
    (ParseLine ("-aft value").toList cursor).FlagsOrdered =
      [{ start := 0, stop := 4, value := ['a'] },
       { start := 0, stop := 4, value := ['f'] },
       { start := 0, stop := 4, value := ['t'] }] ∧
    (ParseLine ("-aft value").toList cursor).Flags =
      [(['a'], { start := 0, stop := 4, value := ['a'] }),
       (['f'], { start := 0, stop := 4, value := ['f'] }),
       (['t'], { start := 0, stop := 4, value := ['t'] })] ∧
    (ParseLine ("-aft value").toList cursor).Arguments = [] ∧
    (ParseLine ("-aft value").toList cursor).Command =
      some { start := 5, stop := 10, value := "value".toList } := by
  obtain ⟨h1, h2, h3, h4⟩ := ParseLine_core_eq ("-aft value").toList cursor 0
  exact ⟨by rw [h1]; decide, by rw [h2]; decide, by rw [h3]; decide, by rw [h4]; decide⟩

/-- Claim C7: for the input "-l value" and any cursor position, the parse yields
exactly one Flag, named "l", owning exactly one Argument whose value is
"value" (the single-character short flag captures the following run). -/
theorem C7_short_flag_capture (cursor : Int) :
    (ParseLine ("-l value").toList cursor).FlagsOrdered =
      [{ start := 0, stop := 2, value := ['l'],
         Args := [{ start := 3, stop := 8, value := "value".toList }] }] ∧
    (ParseLine ("-l value").toList cursor).Flags =
      [(['l'], { start := 0, stop := 2, value := ['l'],
                 Args := [{ start := 3, stop := 8, value := "value".toList }] })] ∧
    lookupAssoc (ParseLine ("-l value").toList cursor).Flags ['l'] =
      some { start := 0, stop := 2, value := ['l'],
             Args := [{ start := 3, stop := 8, value := "value".toList }] } := by
  obtain ⟨h1, h2, _, _⟩ := ParseLine_core_eq ("-l value").toList cursor 0
  exact ⟨by rw [h1]; decide, by rw [h2]; decide, by rw [h2]; decide⟩

/-- Claim C6 counterexample: GetArgString on a present flag with two arguments
succeeds (returning the first), refuting "GetArg and GetArgString on a
present flag fail unless the flag has exactly one argument". -/
theorem C6_counterexample :
    (ParseLine ("-l a b").toList 0).GetArgString ['l'] = .ok ['a'] ∧
    (lookupAssoc (ParseLine ("-l a b").toList 0).Flags ['l']).map
      (fun f => f.Args.length) = some 2 := by
  decide

/-- Overwriting insertion followed by lookup of the same key yields the new
value (Go map assignment semantics). -/
theorem lookupAssoc_updateAssoc {β : Type} (m : List (Str × β)) (k : Str) (v : β) :
    lookupAssoc (updateAssoc m k v) k = some v := by
  induction m with
  | nil => simp [updateAssoc, lookupAssoc]
  | cons hd tl ih =>
      obtain ⟨k', v'⟩ := hd
      by_cases hk : k' = k
      · simp [updateAssoc, lookupAssoc, hk]
      · simp [updateAssoc, lookupAssoc, hk, ih]

/-- Claim C6 amended: every accessor returns the FlagNotSet error exactly when the
flag is absent; on a present flag, ExpectArgs fails with the arity-mismatch
error iff the argument count differs from `needs` (succeeding otherwise with
the flag's arguments); GetArg succeeds iff the flag has exactly one
argument; but GetArgString succeeds whenever the flag has AT LEAST one
argument (failing only on zero), not "exactly one" as claimed. -/
theorem C6_amended (pl : ParsedLine) (name : Str) (needs : Nat) :
    (pl.GetArgs name = .error .flagNotSet ↔ lookupAssoc pl.Flags name = none) ∧
    (pl.GetArgsString name = .error .flagNotSet ↔ lookupAssoc pl.Flags name = none) ∧
    (pl.ExpectArgs name needs = .error .flagNotSet ↔ lookupAssoc pl.Flags name = none) ∧
    (pl.GetArg name = .error .flagNotSet ↔ lookupAssoc pl.Flags name = none) ∧
    (pl.GetArgString name = .error .flagNotSet ↔ lookupAssoc pl.Flags name = none) ∧
    ∀ f, lookupAssoc pl.Flags name = some f →
      (pl.ExpectArgs name needs = .error (.arityMismatch name needs) ↔
        f.Args.length ≠ needs) ∧
      (pl.ExpectArgs name needs = .ok f.Args ↔ f.Args.length = needs) ∧
      ((∃ a, pl.GetArg name = .ok a) ↔ f.Args.length = 1) ∧
      ((∃ s, pl.GetArgString name = .ok s) ↔ f.Args.length ≠ 0) := by
  cases h : lookupAssoc pl.Flags name with
  | none =>
      refine ⟨?_, ?_, ?_, ?_, ?_, ?_⟩ <;>
        simp [ParsedLine.GetArgs, ParsedLine.GetArgsString, ParsedLine.ExpectArgs,
              ParsedLine.GetArg, ParsedLine.GetArgString, h]
  | some f =>
      refine ⟨?_, ?_, ?_, ?_, ?_, ?_⟩
      · simp [ParsedLine.GetArgs, h]
      · simp [ParsedLine.GetArgsString, h]
      · by_cases hn : f.Args.length = needs <;>
          simp [ParsedLine.ExpectArgs, h, hn]
      · by_cases h1 : f.Args.length = 1 <;>
          simp [ParsedLine.GetArg, ParsedLine.ExpectArgs, h, h1]
      · by_cases h0 : f.Args.length = 0 <;>
          simp [ParsedLine.GetArgString, h, h0]
      · intro g hg
        injection hg with hg
        subst hg
        refine ⟨?_, ?_, ?_, ?_⟩
        · by_cases hn : f.Args.length = needs <;>
            simp [ParsedLine.ExpectArgs, h, hn]
        · by_cases hn : f.Args.length = needs <;>
            simp [ParsedLine.ExpectArgs, h, hn]
        · by_cases h1 : f.Args.length = 1 <;>
            simp [ParsedLine.GetArg, ParsedLine.ExpectArgs, h, h1]
        · by_cases h0 : f.Args.length = 0 <;>
            simp [ParsedLine.GetArgString, h, h0]

/-- Claim C6 amended, witness: on the parse of "-l a b", the accessors behave as
characterised — "x" is not set (FlagNotSet), ExpectArgs("l", 5) is an arity
mismatch, and GetArgString("l") succeeds with two arguments present. -/
theorem C6_amended_witness :
    (ParseLine ("-l a b").toList 0).GetArgs ['x'] = .error .flagNotSet ∧
    (ParseLine ("-l a b").toList 0).ExpectArgs ['l'] 5 =
      .error (.arityMismatch ['l'] 5) ∧
    ∃ s, (ParseLine ("-l a b").toList 0).GetArgString ['l'] = .ok s := by
  refine ⟨?_, ?_, ?_⟩
  · exact (C6_amended (ParseLine ("-l a b").toList 0) ['x'] 5).1.mpr (by decide)
  · exact ((C6_amended (ParseLine ("-l a b").toList 0) ['l'] 5).2.2.2.2.2
      { start := 0, stop := 2, value := ['l'],
        Args := [{ start := 3, stop := 4, value := ['a'] },
                 { start := 5, stop := 6, value := ['b'] }] }
      (by decide)).1.mpr (by decide)
  · exact ((C6_amended (ParseLine ("-l a b").toList 0) ['l'] 5).2.2.2.2.2
      { start := 0, stop := 2, value := ['l'],
        Args := [{ start := 3, stop := 4, value := ['a'] },
                 { start := 5, stop := 6, value := ['b'] }] }
      (by decide)).2.2.2.mpr (by decide)

/-- Claim C10: AddUser with a nil server connection returns the
ErrNilServerConnection error, a nil user, and an unchanged registry; with a
non-nil connection it succeeds, storing under `idStr` a user whose IdString
is `idStr` and whose ServerConnection is the given connection, replacing any
prior entry for that id. -/
theorem C10_addUser (Conn Channel Req : Type)
    (allUsers : List (Str × User Conn Channel Req)) (idStr : Str) (conn : Conn) :
    AddUser allUsers idStr (none : Option Conn) =
      ((none, some .errNilServerConnection), allUsers) ∧
    AddUser allUsers idStr (some conn) =
      ((some { IdString := idStr, ServerConnection := some conn }, none),
        updateAssoc allUsers idStr { IdString := idStr, ServerConnection := some conn }) ∧
    lookupAssoc (AddUser allUsers idStr (some conn)).2 idStr =
      some { IdString := idStr, ServerConnection := some conn } :=
  ⟨rfl, rfl, lookupAssoc_updateAssoc allUsers idStr _⟩

/-- Claim C8 counterexample: for the line "x" the cursor 1 lies outside
[0, len(line)) yet Focus is set (the Command's recorded span is the
inclusive interval [0, 1], which contains 1). -/
theorem C8_counterexample :
    ¬ ((0 : Int) ≤ 1 ∧ (1 : Int) < (("x").toList.length : Int)) ∧
    (ParseLine ("x").toList 1).Focus ≠ none := by
  decide

/-- Claim C9 counterexample: for the line "-l" the produced flag has end offset 2,
equal to the line length, refuting `end < len(line)`. -/
theorem C9_counterexample :
    ∃ f ∈ (ParseLine ("-l").toList 0).FlagsOrdered,
      ¬ f.stop < ("-l").toList.length := by
  decide

/-- A value inserted by `updateAssoc` satisfies any property holding for the
old entries and for the new value. -/
theorem mem_updateAssoc {β : Type} (P : β → Prop) :
    ∀ (m : List (Str × β)) (k : Str) (v : β), (∀ kv ∈ m, P kv.2) → P v →
      ∀ kv ∈ updateAssoc m k v, P kv.2 := by
  intro m
  induction m with
  | nil =>
      intro k v _ hv kv hkv
      simp only [updateAssoc, List.mem_singleton] at hkv
      rw [hkv]
      exact hv
  | cons hd tl ih =>
      intro k v hm hv kv hkv
      obtain ⟨k', v'⟩ := hd
      by_cases hk : k' = k
      · simp only [updateAssoc, if_pos hk, List.mem_cons] at hkv
        rcases hkv with hkv | hkv
        · rw [hkv]; exact hv
        · exact hm kv (List.mem_cons_of_mem _ hkv)
      · simp only [updateAssoc, if_neg hk, List.mem_cons] at hkv
        rcases hkv with hkv | hkv
        · rw [hkv]; exact hm (k', v') (List.mem_cons_self _ _)
        · exact ih k v (fun x hx => hm x (List.mem_cons_of_mem _ hx)) hv kv hkv

/-- The empty scan state satisfies the span invariant. -/
theorem coreB_empty (n : Nat) : coreB n {} :=
  ⟨fun f hf => absurd hf (List.not_mem_nil f),
   fun kv hkv => absurd hkv (List.not_mem_nil kv),
   fun a ha => absurd ha (List.not_mem_nil a),
   fun _ hf => Option.noConfusion hf⟩

/-- Flushing the capturing flag preserves the span invariant. -/
theorem flushCore_coreB (n : Nat) (c : Core) (h : coreB n c) :
    coreB n (flushCore c) := by
  unfold flushCore
  cases hcap : c.capture with
  | none => exact h
  | some cap =>
      have hcapB := h.2.2.2 cap hcap
      refine ⟨?_, ?_, h.2.2.1, ?_⟩
      · intro f hf
        rcases List.mem_append.mp hf with h' | h'
        · exact h.1 f h'
        · rw [List.mem_singleton.mp h']; exact hcapB
      · exact mem_updateAssoc (flagB n) c.Flags cap.value cap h.2.1 hcapB
      · intro g hg; exact Option.noConfusion hg

/-- Attaching a scanned argument run to the capturing flag preserves the
span invariant when the run itself is in bounds. -/
theorem captureArgs_coreB (n : Nat) (c : Core) (args : List Argument)
    (h : coreB n c) (hargs : ∀ a ∈ args, argB n a) :
    coreB n (captureArgs c args) := by
  unfold captureArgs
  cases hcap : c.capture with
  | none => exact h
  | some cap =>
      refine ⟨h.1, h.2.1, h.2.2.1, ?_⟩
      intro g hg
      injection hg with hg
      rw [← hg]
      have hcapB := h.2.2.2 cap hcap
      exact ⟨hcapB.1, hcapB.2.1, hargs⟩

/-- Pushing a list of in-bounds flags preserves the span invariant. -/
theorem pushFlags_coreB (n : Nat) :
    ∀ (l : List Flag) (c : Core), coreB n c → (∀ f ∈ l, flagB n f) →
      coreB n (pushFlags c l) := by
  intro l
  induction l with
  | nil => intro c h _; exact h
  | cons f rest ih =>
      intro c h hl
      have hf := hl f (List.mem_cons_self _ _)
      have hstep : coreB n
          { c with Flags := updateAssoc c.Flags f.value f,
                   FlagsOrdered := c.FlagsOrdered ++ [f] } := by
        refine ⟨?_, ?_, h.2.2.1, h.2.2.2⟩
        · intro g hg
          rcases List.mem_append.mp hg with h' | h'
          · exact h.1 g h'
          · rw [List.mem_singleton.mp h']; exact hf
        · exact mem_updateAssoc (flagB n) c.Flags f.value f h.2.1 hf
      exact ih _ hstep (fun g hg => hl g (List.mem_cons_of_mem _ hg))

/-- Bounds of the single-argument scanner loop: the produced span starts at
`startPos` and stays within the line (end ≤ length). -/
theorem parseSingleArgLoop_bounds (line : Str) (p : Nat) :
    ∀ fuel e v ep, p ≤ e → e ≤ line.length →
      (parseSingleArgLoop line p fuel e v ep).1.start = p ∧
      p ≤ (parseSingleArgLoop line p fuel e v ep).1.stop ∧
      (parseSingleArgLoop line p fuel e v ep).1.stop ≤ line.length := by
  intro fuel
  induction fuel with
  | zero => intro e v ep h1 h2; exact ⟨rfl, h1, h2⟩
  | succ n ih =>
      intro e v ep h1 h2
      by_cases hl : e < line.length
      · by_cases hc : line.getD e ' ' = ' '
        · simp only [parseSingleArgLoop, if_pos hl, if_pos hc]
          refine ⟨?_, ?_, ?_⟩ <;> first | trivial | omega
        · simp only [parseSingleArgLoop, if_pos hl, if_neg hc]
          exact ih (e + 1) _ e (by omega) (by omega)
      · simp only [parseSingleArgLoop, if_neg hl]
        refine ⟨?_, ?_, ?_⟩ <;> first | trivial | omega

/-- Bounds of a single scanned argument. -/
theorem parseSingleArg_bounds (line : Str) (p : Nat) (h : p ≤ line.length) :
    argB line.length (parseSingleArg line p).1 := by
  have hb : (parseSingleArg line p).1.start = p ∧
      p ≤ (parseSingleArg line p).1.stop ∧
      (parseSingleArg line p).1.stop ≤ line.length :=
    parseSingleArgLoop_bounds line p (line.length + 1) p [] 0 (le_refl p) h
  refine ⟨?_, hb.2.2⟩
  rw [hb.1]
  exact hb.2.1

/-- Every argument produced by the argument-run scanner is in bounds. -/
theorem parseArgsLoop_bounds (line : Str) :
    ∀ (fuel p : Nat) (acc : List Argument), (∀ a ∈ acc, argB line.length a) →
      ∀ a ∈ (parseArgsLoop line fuel p acc).1, argB line.length a := by
  intro fuel
  induction fuel with
  | zero => intro p acc h; exact h
  | succ n ih =>
      intro p acc hacc
      by_cases hl : p < line.length
      · have hargB : argB line.length (parseSingleArg line p).1 :=
          parseSingleArg_bounds line p (le_of_lt hl)
        have hacc' : ∀ a ∈ (if (parseSingleArg line p).1.value.length ≠ 0 then
            acc ++ [(parseSingleArg line p).1] else acc), argB line.length a := by
          intro a ha
          by_cases hv : (parseSingleArg line p).1.value.length ≠ 0
          · rw [if_pos hv] at ha
            rcases List.mem_append.mp ha with h' | h'
            · exact hacc a h'
            · rw [List.mem_singleton.mp h']; exact hargB
          · rw [if_neg hv] at ha
            exact hacc a ha
        by_cases hstop : (parseSingleArg line p).2 ≠ line.length - 1 ∧
            line.getD ((parseSingleArg line p).2 + 1) ' ' = '-'
        · simp only [parseArgsLoop, if_pos hl, if_pos hstop]
          exact hacc'
        · simp only [parseArgsLoop, if_pos hl, if_neg hstop]
          exact ih _ _ hacc'
      · simp only [parseArgsLoop, if_neg hl]
        exact hacc

/-- Every argument produced by `parseArgs` is in bounds. -/
theorem parseArgs_bounds (line : Str) (p : Nat) :
    ∀ a ∈ (parseArgs line p).1, argB line.length a :=
  parseArgsLoop_bounds line (line.length + 1) p []
    (fun a ha => absurd ha (List.not_mem_nil a))

/-- Bounds of the flag scanner loop: the flag starts at `startPos`, its span
stays within the line, it owns no arguments yet, and the resumption offset
lies in `[startPos, length)`. -/
theorem parseFlagLoop_bounds (line : Str) (p : Nat) (hp : p < line.length) :
    ∀ fuel e linked v lg ep, p ≤ e → e ≤ line.length → line.length < e + fuel →
      ((e = p ∧ ep = 0) ∨ (p ≤ ep ∧ ep + 1 = e)) →
      (parseFlagLoop line p fuel e linked v lg ep).1.start = p ∧
      p ≤ (parseFlagLoop line p fuel e linked v lg ep).1.stop ∧
      (parseFlagLoop line p fuel e linked v lg ep).1.stop ≤ line.length ∧
      (parseFlagLoop line p fuel e linked v lg ep).1.Args = [] ∧
      p ≤ (parseFlagLoop line p fuel e linked v lg ep).2 ∧
      (parseFlagLoop line p fuel e linked v lg ep).2 < line.length ∧
      ((parseFlagLoop line p fuel e linked v lg ep).1.stop =
          (parseFlagLoop line p fuel e linked v lg ep).2 ∨
        ((parseFlagLoop line p fuel e linked v lg ep).1.stop = line.length ∧
          (parseFlagLoop line p fuel e linked v lg ep).2 + 1 = line.length)) := by
  intro fuel
  induction fuel with
  | zero =>
      intro e linked v lg ep h1 h2 h3 h4
      exact absurd h2 (by omega)
  | succ n ih =>
      intro e linked v lg ep h1 h2 h3 h4
      by_cases hl : e < line.length
      · by_cases hc : line.getD e ' ' = ' '
        · simp only [parseFlagLoop, if_pos hl, if_pos hc]
          refine ⟨?_, ?_, ?_, ?_, ?_, ?_, ?_⟩ <;>
            first | trivial | omega | exact Or.inl trivial
        · by_cases hd : line.getD e ' ' = '-' ∧ linked = true
          · simp only [parseFlagLoop, if_pos hl, if_neg hc, if_pos hd]
            exact ih (e + 1) linked v lg e (by omega) (by omega) (by omega)
              (Or.inr ⟨h1, rfl⟩)
          · simp only [parseFlagLoop, if_pos hl, if_neg hc, if_neg hd]
            exact ih (e + 1) false _ _ e (by omega) (by omega) (by omega)
              (Or.inr ⟨h1, rfl⟩)
      · simp only [parseFlagLoop, if_neg hl]
        rcases h4 with ⟨hep, -⟩ | ⟨hA, hB⟩
        · exact absurd hp (by omega)
        · refine ⟨?_, ?_, ?_, ?_, ?_, ?_, ?_⟩ <;> first | trivial | omega

/-- Bounds of a scanned flag and of the resumption offset; the flag's end is
the resumption offset itself, except when the token ran to the end of the
line (then end = length and the resumption offset is length - 1). -/
theorem parseFlag_bounds (line : Str) (i : Nat) (h : i < line.length) :
    (parseFlag line i).1.start = i ∧ i ≤ (parseFlag line i).1.stop ∧
    (parseFlag line i).1.stop ≤ line.length ∧ (parseFlag line i).1.Args = [] ∧
    i ≤ (parseFlag line i).2 ∧ (parseFlag line i).2 < line.length ∧
    ((parseFlag line i).1.stop = (parseFlag line i).2 ∨
      ((parseFlag line i).1.stop = line.length ∧
        (parseFlag line i).2 + 1 = line.length)) :=
  parseFlagLoop_bounds line i h (line.length + 1) i true [] false 0
    (le_refl i) (le_of_lt h) (by omega) (Or.inl ⟨rfl, rfl⟩)

/-- An out-of-range cursor is contained in no in-bounds argument span, so
the focus scan leaves the focus state untouched. -/
theorem focusScan_oob (cursor : Int) (n : Nat)
    (hOOB : cursor < 0 ∨ (n : Int) < cursor) :
    ∀ (args : List Argument) (hc : Bool) (fs : FocusSt),
      (∀ a ∈ args, argB n a) → focusScan cursor hc args fs = fs := by
  intro args
  induction args with
  | nil => intro hc fs _; rfl
  | cons a rest ih =>
      intro hc fs hb
      have ha := hb a (List.mem_cons_self _ _)
      have hguard : ¬ ((a.start : Int) ≤ cursor ∧ cursor ≤ (a.stop : Int)) := by
        rcases hOOB with hO | hO
        · rintro ⟨hA, -⟩
          have h0 : (0 : Int) ≤ (a.start : Int) := Int.natCast_nonneg _
          omega
        · rintro ⟨-, hB⟩
          have hs : (a.stop : Int) ≤ (n : Int) := by exact_mod_cast ha.2
          omega
      simp only [focusScan, if_neg hguard]
      exact ih hc fs (fun x hx => hb x (List.mem_cons_of_mem _ hx))

/-- Flushing preserves an unset Focus. -/
theorem flushFocus_focus_none (cap : Option Flag) (fs : FocusSt)
    (h : fs.Focus = none) : (flushFocus cap fs).Focus = none := by
  cases cap with
  | none => exact h
  | some cap => simp [flushFocus, h]

/-- The scan loop preserves the span invariant, and — for an out-of-range
cursor — an unset Focus. -/
theorem parseLoop_inv (line : Str) (cursor : Int) :
    ∀ fuel i c fs, coreB line.length c →
      coreB line.length (parseLoop line cursor fuel i c fs).1 ∧
      ((cursor < 0 ∨ (line.length : Int) < cursor) → fs.Focus = none →
        (parseLoop line cursor fuel i c fs).2.Focus = none) := by
  intro fuel
  induction fuel with
  | zero => intro i c fs h; exact ⟨h, fun _ hf => hf⟩
  | succ m ih =>
      intro i c fs h
      by_cases h1 : i < line.length
      · by_cases h2 : line.getD i ' ' = '-'
        · obtain ⟨hst, hps, hsl, hargs, hpr, hrl, -⟩ := parseFlag_bounds line i h1
          have hflag : flagB line.length (parseFlag line i).1 := by
            refine ⟨?_, hsl, ?_⟩
            · rw [hst]; exact hps
            · rw [hargs]
              exact fun a ha => absurd ha (List.not_mem_nil a)
          have hc1 : coreB line.length (flushCore c) := flushCore_coreB _ _ h
          have hguard : (cursor < 0 ∨ (line.length : Int) < cursor) →
              ¬ (((parseFlag line i).1.start : Int) ≤ cursor ∧
                 cursor ≤ ((parseFlag line i).1.stop : Int)) := by
            intro hOOB
            rcases hOOB with hO | hO
            · rintro ⟨hA, -⟩
              have h0 : (0 : Int) ≤ ((parseFlag line i).1.start : Int) :=
                Int.natCast_nonneg _
              omega
            · rintro ⟨-, hB⟩
              have hs : ((parseFlag line i).1.stop : Int) ≤ (line.length : Int) := by
                exact_mod_cast hsl
              omega
          by_cases h3 : (parseFlag line i).1.long = true ∨
              (parseFlag line i).1.value.length = 1
          · simp only [parseLoop, if_pos h1, if_pos h2, if_pos h3]
            have hc2 : coreB line.length
                { flushCore c with capture := some (parseFlag line i).1 } := by
              refine ⟨hc1.1, hc1.2.1, hc1.2.2.1, ?_⟩
              intro g hg
              injection hg with hg
              rw [← hg]
              exact hflag
            refine ⟨(ih _ _ _ hc2).1, fun hOOB hf => (ih _ _ _ hc2).2 hOOB ?_⟩
            rw [if_neg (hguard hOOB)]
            exact flushFocus_focus_none _ _ hf
          · simp only [parseLoop, if_pos h1, if_pos h2, if_neg h3]
            have hbundle : ∀ g ∈ bundleFlags (parseFlag line i).1 (parseFlag line i).2,
                flagB line.length g := by
              intro g hg
              simp only [bundleFlags, List.mem_map] at hg
              obtain ⟨ch, hch, rfl⟩ := hg
              refine ⟨?_, le_of_lt hrl, fun a ha => absurd ha (List.not_mem_nil a)⟩
              show (parseFlag line i).1.start ≤ (parseFlag line i).2
              rw [hst]
              exact hpr
            have hc2 : coreB line.length
                { pushFlags (flushCore c)
                    (bundleFlags (parseFlag line i).1 (parseFlag line i).2) with
                  capture := none } := by
              have hp := pushFlags_coreB line.length _ _ hc1 hbundle
              exact ⟨hp.1, hp.2.1, hp.2.2.1, fun g hg => Option.noConfusion hg⟩
            refine ⟨(ih _ _ _ hc2).1, fun hOOB hf => (ih _ _ _ hc2).2 hOOB ?_⟩
            rw [if_neg (hguard hOOB)]
            exact flushFocus_focus_none _ _ hf
        · simp only [parseLoop, if_pos h1, if_neg h2]
          have hargsB := parseArgs_bounds line i
          have hcmid : coreB line.length
              { c with Arguments := c.Arguments ++ (parseArgs line i).1 } := by
            refine ⟨h.1, h.2.1, ?_, h.2.2.2⟩
            intro a ha
            rcases List.mem_append.mp ha with h' | h'
            · exact h.2.2.1 a h'
            · exact hargsB a h'
          have hc2 := captureArgs_coreB line.length _ _ hcmid hargsB
          refine ⟨(ih _ _ _ hc2).1, fun hOOB hf => (ih _ _ _ hc2).2 hOOB ?_⟩
          rw [focusScan_oob cursor line.length hOOB _ _ _ hargsB]
          exact hf
      · simp only [parseLoop, if_neg h1]
        exact ⟨h, fun _ hf => hf⟩

/-- Claim C9 amended: every node produced by a parse — every Flag in
FlagsOrdered and in the Flags map, every top-level Argument, every
flag-owned Argument, and the Command — has inclusive offsets satisfying
`0 ≤ start ≤ end ≤ len(line)`: the end offset can equal `len(line)` (for a
token that runs to the end of the line), so `end < len(line)` does not hold
in general. -/
theorem C9_amended (line : Str) (cursor : Int) :
    (∀ f ∈ (ParseLine line cursor).FlagsOrdered, flagB line.length f) ∧
    (∀ kv ∈ (ParseLine line cursor).Flags, flagB line.length kv.2) ∧
    (∀ a ∈ (ParseLine line cursor).Arguments, argB line.length a) ∧
    (∀ c, (ParseLine line cursor).Command = some c →
      c.start ≤ c.stop ∧ c.stop ≤ line.length) := by
  have hinv := (parseLoop_inv line cursor (line.length + 1) 0 {} {}
    (coreB_empty line.length)).1
  have hEnd := flushCore_coreB line.length _ hinv
  simp only [ParseLine]
  rcases hA : (flushCore (parseLoop line cursor (line.length + 1) 0 {} {}).1).Arguments
    with _ | ⟨a, rest⟩
  · simp only [hA]
    refine ⟨hEnd.1, hEnd.2.1, ?_, ?_⟩
    · exact fun a ha => absurd ha (List.not_mem_nil a)
    · intro c hc
      exact Option.noConfusion hc
  · simp only [hA]
    refine ⟨hEnd.1, hEnd.2.1, ?_, ?_⟩
    · intro x hx
      exact hEnd.2.2.1 x (hA ▸ List.mem_cons_of_mem a hx)
    · intro c hc
      injection hc with hc
      have ha := hEnd.2.2.1 a (hA ▸ List.mem_cons_self a rest)
      rw [← hc]
      exact ⟨ha.1, ha.2⟩

/-- Claim C9 amended, witness: the span invariant instantiated on the parse of
"-l a b" at the flag stored under "l". -/
theorem C9_amended_witness :
    flagB (("-l a b").toList.length)
      { start := 0, stop := 2, value := ['l'],
        Args := [{ start := 3, stop := 4, value := ['a'] },
                 { start := 5, stop := 6, value := ['b'] }] } :=
  (C9_amended ("-l a b").toList 0).1 _ (by decide)

/-- Claim C8 amended: a cursor outside the inclusive range `[0, len(line)]` (that
is, negative or strictly greater than the line length) never matches any
node span, so Focus is unset; a cursor equal to `len(line)` can still focus
a node, because recorded spans may end at `len(line)`. -/
theorem C8_amended (line : Str) (cursor : Int)
    (h : cursor < 0 ∨ (line.length : Int) < cursor) :
    (ParseLine line cursor).Focus = none := by
  have hpair := parseLoop_inv line cursor (line.length + 1) 0 {} {}
    (coreB_empty line.length)
  have hEnd := flushCore_coreB line.length _ hpair.1
  have hfoc : (parseLoop line cursor (line.length + 1) 0 {} {}).2.Focus = none :=
    hpair.2 h rfl
  have hf0 : (flushFocus (parseLoop line cursor (line.length + 1) 0 {} {}).1.capture
      (parseLoop line cursor (line.length + 1) 0 {} {}).2).Focus = none :=
    flushFocus_focus_none _ _ hfoc
  simp only [ParseLine]
  rcases hA : (flushCore (parseLoop line cursor (line.length + 1) 0 {} {}).1).Arguments
    with _ | ⟨a, rest⟩
  · simp only [hA]
    simp [hf0, resolveFocus]
  · simp only [hA]
    have ha := hEnd.2.2.1 a (hA ▸ List.mem_cons_self a rest)
    have hguard : ¬ ((a.start : Int) ≤ cursor ∧ cursor ≤ (a.stop : Int)) := by
      rcases h with hO | hO
      · rintro ⟨hB, -⟩
        have h0 : (0 : Int) ≤ (a.start : Int) := Int.natCast_nonneg _
        omega
      · rintro ⟨-, hB⟩
        have hs : (a.stop : Int) ≤ (line.length : Int) := by exact_mod_cast ha.2
        omega
    simp [hguard, hf0, resolveFocus]

/-- Claim C8 amended, witness: on the line "x" with cursor 5 (past the end),
Focus is unset. -/
theorem flushCore_capture_none (c : Core) : (flushCore c).capture = none := by
  cases hcap : c.capture <;> simp [flushCore, hcap]

/-- Flushing moves the capturing flag (if any) to the end of the ordered
list: the flushed ordered list is exactly `flagsAll` of the old state. -/
theorem flushCore_ordered_all (c : Core) :
    (flushCore c).FlagsOrdered = flagsAll c := by
  cases hcap : c.capture <;> simp [flushCore, flagsAll, hcap]

theorem flushCore_arguments (c : Core) :
    (flushCore c).Arguments = c.Arguments := by
  cases hcap : c.capture <;> simp [flushCore, hcap]

theorem flagsAll_flushCore (c : Core) : flagsAll (flushCore c) = flagsAll c := by
  cases hcap : c.capture <;> simp [flushCore, flagsAll, hcap]

theorem pushFlags_ordered :
    ∀ (l : List Flag) (c : Core),
      (pushFlags c l).FlagsOrdered = c.FlagsOrdered ++ l := by
  intro l
  induction l with
  | nil => intro c; simp [pushFlags]
  | cons f rest ih =>
      intro c
      show (pushFlags _ rest).FlagsOrdered = _
      rw [ih]
      simp

theorem pushFlags_arguments :
    ∀ (l : List Flag) (c : Core), (pushFlags c l).Arguments = c.Arguments := by
  intro l
  induction l with
  | nil => intro c; rfl
  | cons f rest ih =>
      intro c
      show (pushFlags _ rest).Arguments = _
      rw [ih]

/-- Every member of a short-option bundle shares the bundle's start, ends at
the resumption offset `r`, and owns no arguments. -/
theorem bundleFlags_mem (f : Flag) (r : Nat) (g : Flag)
    (hg : g ∈ bundleFlags f r) : g.start = f.start ∧ g.stop = r ∧ g.Args = [] := by
  simp only [bundleFlags, List.mem_map] at hg
  obtain ⟨ch, -, rfl⟩ := hg
  exact ⟨rfl, rfl, rfl⟩

/-- All members of a bundle are pairwise `flagBefore` (they share a span). -/
theorem bundleFlags_pairwise (f : Flag) (r : Nat) :
    List.Pairwise flagBefore (bundleFlags f r) := by
  unfold bundleFlags
  induction f.value with
  | nil => exact .nil
  | cons ch rest ih =>
      refine .cons ?_ ih
      intro g hg
      simp only [List.mem_map] at hg
      obtain ⟨ch2, -, rfl⟩ := hg
      exact Or.inr ⟨rfl, rfl⟩

/-- The focus scan leaves the state untouched when no scanned argument
contains the cursor. -/
theorem focusScan_no_hit (cursor : Int) (hc : Bool) :
    ∀ (args : List Argument) (fs : FocusSt),
      (∀ a ∈ args, ¬ argContains cursor a) → focusScan cursor hc args fs = fs := by
  intro args
  induction args with
  | nil => intro fs _; rfl
  | cons a rest ih =>
      intro fs h
      have ha : ¬ ((a.start : Int) ≤ cursor ∧ cursor ≤ (a.stop : Int)) :=
        h a (List.mem_cons_self _ _)
      simp only [focusScan, if_neg ha]
      exact ih fs (fun x hx => h x (List.mem_cons_of_mem _ hx))

/-- The focus scan never clears the Focus once it is set. -/
theorem focusScan_focus_some (cursor : Int) (hc : Bool) :
    ∀ (args : List Argument) (fs : FocusSt), fs.Focus.isSome = true →
      (focusScan cursor hc args fs).Focus.isSome = true := by
  intro args
  induction args with
  | nil => intro fs h; exact h
  | cons a rest ih =>
      intro fs h
      by_cases ha : (a.start : Int) ≤ cursor ∧ cursor ≤ (a.stop : Int)
      · simp only [focusScan, if_pos ha]
        exact ih _ rfl
      · simp only [focusScan, if_neg ha]
        exact ih fs h

/-- A hit among the scanned arguments sets the Focus. -/
theorem focusScan_hit_focus (cursor : Int) (hc : Bool) :
    ∀ (args : List Argument) (fs : FocusSt),
      (∃ a ∈ args, argContains cursor a) →
      (focusScan cursor hc args fs).Focus.isSome = true := by
  intro args
  induction args with
  | nil => rintro fs ⟨a, ha, -⟩; exact absurd ha (List.not_mem_nil a)
  | cons a rest ih =>
      rintro fs ⟨b, hb, hcb⟩
      by_cases ha : (a.start : Int) ≤ cursor ∧ cursor ≤ (a.stop : Int)
      · simp only [focusScan, if_pos ha]
        exact focusScan_focus_some cursor hc rest _ rfl
      · have hbr : b ∈ rest := by
          rcases List.mem_cons.mp hb with rfl | h'
          · exact absurd hcb ha
          · exact h'
        simp only [focusScan, if_neg ha]
        exact ih fs ⟨b, hbr, hcb⟩

/-- Under an active capture, a hit among the scanned arguments points the
tracked Section at the capture alias. -/
theorem focusScan_capture_hit (cursor : Int) :
    ∀ (args : List Argument) (fs : FocusSt),
      (∃ a ∈ args, argContains cursor a) →
      (focusScan cursor true args fs).SectionR = some .captureRef := by
  intro args
  induction args with
  | nil => rintro fs ⟨a, ha, -⟩; exact absurd ha (List.not_mem_nil a)
  | cons a rest ih =>
      rintro fs ⟨b, hb, hcb⟩
      by_cases ha : (a.start : Int) ≤ cursor ∧ cursor ≤ (a.stop : Int)
      · simp only [focusScan, if_pos ha]
        by_cases hrest : ∃ x ∈ rest, argContains cursor x
        · exact ih _ hrest
        · push_neg at hrest
          rw [focusScan_no_hit cursor true rest _ hrest]
          simp
      · have hbr : b ∈ rest := by
          rcases List.mem_cons.mp hb with rfl | h'
          · exact absurd hcb ha
          · exact h'
        simp only [focusScan, if_neg ha]
        exact ih fs ⟨b, hbr, hcb⟩

/-- Without an active capture, a hit among the scanned arguments resets the
tracked Section to nil (the Go `pl.Section = capture` with capture nil). -/
theorem focusScan_nocapture_hit (cursor : Int) :
    ∀ (args : List Argument) (fs : FocusSt),
      (∃ a ∈ args, argContains cursor a) →
      (focusScan cursor false args fs).SectionR = none := by
  intro args
  induction args with
  | nil => rintro fs ⟨a, ha, -⟩; exact absurd ha (List.not_mem_nil a)
  | cons a rest ih =>
      rintro fs ⟨b, hb, hcb⟩
      by_cases ha : (a.start : Int) ≤ cursor ∧ cursor ≤ (a.stop : Int)
      · simp only [focusScan, if_pos ha]
        by_cases hrest : ∃ x ∈ rest, argContains cursor x
        · exact ih _ hrest
        · push_neg at hrest
          rw [focusScan_no_hit cursor false rest _ hrest]
          simp
      · have hbr : b ∈ rest := by
          rcases List.mem_cons.mp hb with rfl | h'
          · exact absurd hcb ha
          · exact h'
        simp only [focusScan, if_neg ha]
        exact ih fs ⟨b, hbr, hcb⟩

theorem flushFocus_section_none (cap : Option Flag) (fs : FocusSt)
    (h : fs.SectionR = none) : (flushFocus cap fs).SectionR = none := by
  cases cap with
  | none => exact h
  | some cap => simp [flushFocus, h]

theorem flushFocus_section_snap (cap : Option Flag) (fs : FocusSt) (f : Flag)
    (h : fs.SectionR = some (.snap f)) :
    (flushFocus cap fs).SectionR = some (.snap f) := by
  cases cap with
  | none => exact h
  | some cap => simp [flushFocus, h]

theorem flushFocus_section_captureRef (cap : Flag) (fs : FocusSt)
    (h : fs.SectionR = some .captureRef) :
    (flushFocus (some cap) fs).SectionR = some (.snap cap) := by
  simp [flushFocus, h]

/-- An unset Focus after flushing means the Focus was unset before. -/
theorem flushFocus_focus_back (cap : Option Flag) (fs : FocusSt)
    (h : (flushFocus cap fs).Focus = none) : fs.Focus = none := by
  cases cap with
  | none => exact h
  | some cap =>
      rcases hf : fs.Focus with _ | r
      · rfl
      · exfalso
        cases r <;> simp [flushFocus, hf] at h

/-- A backward-walk result `some (true, f)` names a containing flag of the
walked list. -/
theorem sectionWalk_true (cursor : Int) :
    ∀ (r : List Flag) (f : Flag), sectionWalk cursor r = some (true, f) →
      f ∈ r ∧ flagContains cursor f := by
  intro r
  induction r with
  | nil => intro f h; exact absurd h (by simp [sectionWalk])
  | cons g rest ih =>
      intro f h
      by_cases hc : (g.start : Int) ≤ cursor ∧ cursor ≤ (g.stop : Int)
      · simp only [sectionWalk, if_pos hc] at h
        injection h with h
        injection h with h1 h2
        rw [← h2]
        exact ⟨List.mem_cons_self _ _, hc⟩
      · by_cases hlt : cursor < (g.stop : Int)
        · simp only [sectionWalk, if_neg hc, if_pos hlt] at h
          obtain ⟨hm, hcf⟩ := ih f h
          exact ⟨List.mem_cons_of_mem _ hm, hcf⟩
        · simp only [sectionWalk, if_neg hc, if_neg hlt] at h
          injection h with h
          injection h with h1 h2
          exact Bool.noConfusion h1

/-- If some walked flag contains the cursor, the backward walk stops with
`some (true, f)` at a containing flag — provided the walked list is sorted
with later flags first (the reversed scan order) and spans are well formed.
This is the exact-containment arm of utils.go:284-287. -/
theorem sectionWalk_finds (cursor : Int) :
    ∀ (r : List Flag), (∀ f ∈ r, f.start ≤ f.stop) →
      List.Pairwise (fun g f => flagBefore f g) r →
      (∃ f ∈ r, flagContains cursor f) →
      ∃ f ∈ r, flagContains cursor f ∧ sectionWalk cursor r = some (true, f) := by
  intro r
  induction r with
  | nil => rintro - - ⟨f, hm, -⟩; exact absurd hm (List.not_mem_nil f)
  | cons g rest ih =>
      rintro hspan hpw ⟨f, hmem, hcf⟩
      by_cases hc : (g.start : Int) ≤ cursor ∧ cursor ≤ (g.stop : Int)
      · refine ⟨g, List.mem_cons_self _ _, hc, ?_⟩
        simp only [sectionWalk, if_pos hc]
      · have hpw' := List.pairwise_cons.mp hpw
        have hf_rest : f ∈ rest := by
          rcases List.mem_cons.mp hmem with rfl | h'
          · exact absurd hcf hc
          · exact h'
        have hskip : cursor < (g.stop : Int) := by
          rcases hpw'.1 f hf_rest with hlt | ⟨hs1, hs2⟩
          · have hcu : cursor ≤ (f.stop : Int) := hcf.2
            have hgs : g.start ≤ g.stop := hspan g (List.mem_cons_self _ _)
            have hfg : (f.stop : Int) < (g.start : Int) := by exact_mod_cast hlt
            have hgs' : (g.start : Int) ≤ (g.stop : Int) := by exact_mod_cast hgs
            omega
          · exfalso
            apply hc
            unfold flagContains at hcf
            rw [hs1, hs2] at hcf
            exact hcf
        obtain ⟨f', hm', hcf', hwalk⟩ := ih
          (fun x hx => hspan x (List.mem_cons_of_mem _ hx)) hpw'.2
          ⟨f, hf_rest, hcf⟩
        refine ⟨f', List.mem_cons_of_mem _ hm', hcf', ?_⟩
        simp only [sectionWalk, if_neg hc, if_pos hskip]
        exact hwalk

/-- When no walked flag contains the cursor, the backward walk degenerates
into a search for the first flag ending at or before the cursor (the
`closestLeft` arm of utils.go:289-294). -/
theorem sectionWalk_no_contain (cursor : Int) :
    ∀ (r : List Flag), (∀ f ∈ r, ¬ flagContains cursor f) →
      sectionWalk cursor r =
        Option.map (fun f => (false, f))
          (r.find? fun f => decide ((f.stop : Int) ≤ cursor)) := by
  intro r
  induction r with
  | nil => intro _; rfl
  | cons g rest ih =>
      intro h
      have hgc : ¬ ((g.start : Int) ≤ cursor ∧ cursor ≤ (g.stop : Int)) :=
        h g (List.mem_cons_self _ _)
      by_cases hle : (g.stop : Int) ≤ cursor
      · have hnlt : ¬ cursor < (g.stop : Int) := by omega
        simp only [sectionWalk, if_neg hgc, if_neg hnlt]
        rw [List.find?_cons_of_pos _ (by simpa using hle)]
        rfl
      · have hlt : cursor < (g.stop : Int) := by omega
        simp only [sectionWalk, if_neg hgc, if_pos hlt]
        rw [List.find?_cons_of_neg _ (by simpa using hle)]
        exact ih (fun x hx => h x (List.mem_cons_of_mem _ hx))

/-- The claim-side nearest-left flag is the first match of the reversed
list: the two formulations of "nearest flag ending at or before the cursor"
coincide. -/
theorem closestLeftSpec_reverse (cursor : Int) :
    ∀ l : List Flag, closestLeftSpec cursor l =
      l.reverse.find? fun f => decide ((f.stop : Int) ≤ cursor) := by
  intro l
  induction l with
  | nil => rfl
  | cons f rest ih =>
      simp only [closestLeftSpec, List.reverse_cons]
      rw [List.find?_append, ih]
      cases hr : rest.reverse.find? fun f => decide ((f.stop : Int) ≤ cursor) with
      | some g => simp [Option.or]
      | none =>
          by_cases hle : (f.stop : Int) ≤ cursor
          · simp [Option.or, List.find?, hle]
          · simp [Option.or, List.find?, hle]

/-- Positional bounds of the single-argument scanner when it starts inside
the line, including the end/resumption relation (mirror of
`parseFlagLoop_bounds`). -/
theorem parseSingleArgLoop_pos (line : Str) (p : Nat) (hp : p < line.length) :
    ∀ fuel e v ep, p ≤ e → e ≤ line.length → line.length < e + fuel →
      ((e = p ∧ ep = 0) ∨ (p ≤ ep ∧ ep + 1 = e)) →
      (parseSingleArgLoop line p fuel e v ep).1.start = p ∧
      p ≤ (parseSingleArgLoop line p fuel e v ep).1.stop ∧
      (parseSingleArgLoop line p fuel e v ep).1.stop ≤ line.length ∧
      p ≤ (parseSingleArgLoop line p fuel e v ep).2 ∧
      (parseSingleArgLoop line p fuel e v ep).2 < line.length ∧
      ((parseSingleArgLoop line p fuel e v ep).1.stop =
          (parseSingleArgLoop line p fuel e v ep).2 ∨
        ((parseSingleArgLoop line p fuel e v ep).1.stop = line.length ∧
          (parseSingleArgLoop line p fuel e v ep).2 + 1 = line.length)) := by
  intro fuel
  induction fuel with
  | zero =>
      intro e v ep h1 h2 h3 h4
      exact absurd h2 (by omega)
  | succ n ih =>
      intro e v ep h1 h2 h3 h4
      by_cases hl : e < line.length
      · by_cases hc : line.getD e ' ' = ' '
        · simp only [parseSingleArgLoop, if_pos hl, if_pos hc]
          refine ⟨?_, ?_, ?_, ?_, ?_, ?_⟩ <;>
            first | trivial | omega | exact Or.inl trivial
        · simp only [parseSingleArgLoop, if_pos hl, if_neg hc]
          exact ih (e + 1) _ e (by omega) (by omega) (by omega) (Or.inr ⟨h1, rfl⟩)
      · simp only [parseSingleArgLoop, if_neg hl]
        rcases h4 with ⟨hep, -⟩ | ⟨hA, hB⟩
        · exact absurd hp (by omega)
        · refine ⟨?_, ?_, ?_, ?_, ?_, ?_⟩ <;> first | trivial | omega

/-- Positional bounds of a single scanned argument starting inside the
line. -/
theorem parseSingleArg_pos (line : Str) (p : Nat) (hp : p < line.length) :
    (parseSingleArg line p).1.start = p ∧ p ≤ (parseSingleArg line p).1.stop ∧
    (parseSingleArg line p).1.stop ≤ line.length ∧
    p ≤ (parseSingleArg line p).2 ∧ (parseSingleArg line p).2 < line.length ∧
    ((parseSingleArg line p).1.stop = (parseSingleArg line p).2 ∨
      ((parseSingleArg line p).1.stop = line.length ∧
        (parseSingleArg line p).2 + 1 = line.length)) :=
  parseSingleArgLoop_pos line p hp (line.length + 1) p [] 0 (le_refl p)
    (le_of_lt hp) (by omega) (Or.inl ⟨rfl, rfl⟩)

/-- Positional bounds of an argument run: the resumption offset does not
retreat, and every produced argument (beyond the accumulator) lies between
the start offset and the resumption offset. -/
theorem parseArgsLoop_pos (line : Str) :
    ∀ (fuel p : Nat) (acc : List Argument), p ≤ line.length →
      p ≤ (parseArgsLoop line fuel p acc).2 ∧
      (parseArgsLoop line fuel p acc).2 ≤ line.length ∧
      ∀ a ∈ (parseArgsLoop line fuel p acc).1, a ∈ acc ∨
        (p ≤ a.start ∧ a.start ≤ a.stop ∧
          a.stop ≤ (parseArgsLoop line fuel p acc).2) := by
  intro fuel
  induction fuel with
  | zero =>
      intro p acc hp
      exact ⟨le_refl p, hp, fun a ha => Or.inl ha⟩
  | succ n ih =>
      intro p acc hp
      by_cases hl : p < line.length
      · obtain ⟨hs1, hs2, hs3, hs4, hs5, hs6⟩ := parseSingleArg_pos line p hl
        by_cases hstop : (parseSingleArg line p).2 ≠ line.length - 1 ∧
            line.getD ((parseSingleArg line p).2 + 1) ' ' = '-'
        · simp only [parseArgsLoop, if_pos hl, if_pos hstop]
          have hse : (parseSingleArg line p).1.stop = (parseSingleArg line p).2 := by
            rcases hs6 with h6 | ⟨h6a, h6b⟩
            · exact h6
            · exact absurd (by omega) hstop.1
          refine ⟨hs4, le_of_lt hs5, ?_⟩
          intro a ha
          by_cases hv : (parseSingleArg line p).1.value.length ≠ 0
          · rw [if_pos hv] at ha
            rcases List.mem_append.mp ha with h' | h'
            · exact Or.inl h'
            · rw [List.mem_singleton.mp h']
              refine Or.inr ⟨le_of_eq hs1.symm, ?_, le_of_eq hse⟩
              rw [hs1]; exact hs2
          · rw [if_neg hv] at ha
            exact Or.inl ha
        · simp only [parseArgsLoop, if_pos hl, if_neg hstop]
          obtain ⟨ih1, ih2, ih3⟩ := ih ((parseSingleArg line p).2 + 1)
            (if (parseSingleArg line p).1.value.length ≠ 0 then
              acc ++ [(parseSingleArg line p).1] else acc) (by omega)
          refine ⟨by omega, ih2, ?_⟩
          intro a ha
          rcases ih3 a ha with h' | h'
          · by_cases hv : (parseSingleArg line p).1.value.length ≠ 0
            · rw [if_pos hv] at h'
              rcases List.mem_append.mp h' with h2' | h2'
              · exact Or.inl h2'
              · rw [List.mem_singleton.mp h2']
                refine Or.inr ⟨le_of_eq hs1.symm, ?_, ?_⟩
                · rw [hs1]; exact hs2
                · rcases hs6 with h6 | ⟨h6a, h6b⟩ <;> omega
            · rw [if_neg hv] at h'
              exact Or.inl h'
          · exact Or.inr ⟨by omega, h'.2.1, h'.2.2⟩
      · simp only [parseArgsLoop, if_neg hl]
        exact ⟨le_refl p, hp, fun a ha => Or.inl ha⟩

/-- Positional bounds of `parseArgs`. -/
theorem parseArgs_pos (line : Str) (p : Nat) (hp : p ≤ line.length) :
    p ≤ (parseArgs line p).2 ∧ (parseArgs line p).2 ≤ line.length ∧
    ∀ a ∈ (parseArgs line p).1,
      p ≤ a.start ∧ a.start ≤ a.stop ∧ a.stop ≤ (parseArgs line p).2 := by
  obtain ⟨h1, h2, h3⟩ := parseArgsLoop_pos line (line.length + 1) p [] hp
  refine ⟨h1, h2, ?_⟩
  intro a ha
  rcases h3 a ha with h' | h'
  · exact absurd h' (List.not_mem_nil a)
  · exact h'

/-- After an argument run, the scan either stands at the end of the line or
the next loop index points at a dash (utils.go:198: the run only stops early
just before a dash). -/
theorem parseArgsLoop_nextDash (line : Str) :
    ∀ (fuel p : Nat) (acc : List Argument), p ≤ line.length →
      line.length < p + fuel →
      line.length ≤ (parseArgsLoop line fuel p acc).2 + 1 ∨
        line.getD ((parseArgsLoop line fuel p acc).2 + 1) ' ' = '-' := by
  intro fuel
  induction fuel with
  | zero =>
      intro p acc hp hf
      exact absurd hp (by omega)
  | succ n ih =>
      intro p acc hp hf
      by_cases hl : p < line.length
      · obtain ⟨hs1, hs2, hs3, hs4, hs5, hs6⟩ := parseSingleArg_pos line p hl
        by_cases hstop : (parseSingleArg line p).2 ≠ line.length - 1 ∧
            line.getD ((parseSingleArg line p).2 + 1) ' ' = '-'
        · simp only [parseArgsLoop, if_pos hl, if_pos hstop]
          exact Or.inr hstop.2
        · simp only [parseArgsLoop, if_pos hl, if_neg hstop]
          exact ih ((parseSingleArg line p).2 + 1) _ (by omega) (by omega)
      · simp only [parseArgsLoop, if_neg hl]
        exact Or.inl (by omega)

/-- After `parseArgs`, the scan either stands at the end of the line or the
next loop index points at a dash. -/
theorem parseArgs_nextDash (line : Str) (p : Nat) (hp : p ≤ line.length) :
    line.length ≤ (parseArgs line p).2 + 1 ∨
      line.getD ((parseArgs line p).2 + 1) ' ' = '-' :=
  parseArgsLoop_nextDash line (line.length + 1) p [] hp (by omega)

/-- The focus scan never writes the capture alias into the Focus: if the
alias comes out, it was already there. -/
theorem focusScan_focus_capref (cursor : Int) (hc : Bool) :
    ∀ (args : List Argument) (fs : FocusSt),
      (focusScan cursor hc args fs).Focus = some .captureRef →
      fs.Focus = some .captureRef := by
  intro args
  induction args with
  | nil => intro fs h'; exact h'
  | cons a rest ih =>
      intro fs h'
      by_cases ha : (a.start : Int) ≤ cursor ∧ cursor ≤ (a.stop : Int)
      · simp only [focusScan, if_pos ha] at h'
        have h2 := ih _ h'
        injection h2 with h3
        exact NodeRef.noConfusion h3
      · simp only [focusScan, if_neg ha] at h'
        exact ih fs h'

/-- Flushing the capturing flag preserves the scan invariant at the same
loop index, provided the index is still inside the line (so the capturing
flag's span lies strictly left of it). -/
theorem flushInv (line : Str) (cursor : Int) (i : Nat) (c : Core)
    (fs : FocusSt) (h : ScanInv line cursor i c fs) (hi : i < line.length) :
    ScanInv line cursor i (flushCore c) (flushFocus c.capture fs) := by
  cases hcap : c.capture with
  | none =>
      have e1 : flushCore c = c := by simp [flushCore, hcap]
      rw [e1]
      exact h
  | some cap =>
      have hcapStop : cap.stop < i := by
        rcases h.capStop cap hcap with h' | ⟨-, h'⟩
        · exact h'
        · omega
      have hOrd : (flushCore c).FlagsOrdered = c.FlagsOrdered ++ [cap] := by
        simp [flushCore, hcap]
      have hCap : (flushCore c).capture = none := flushCore_capture_none c
      have hArgs : (flushCore c).Arguments = c.Arguments := flushCore_arguments c
      have hAll : flagsAll (flushCore c) = flagsAll c := flagsAll_flushCore c
      refine ⟨?_, ?_, ?_, ?_, ?_, ?_, ?_, ?_, ?_, ?_, ?_, ?_, ?_, ?_, ?_⟩
      · intro f hf
        rw [hOrd] at hf
        rcases List.mem_append.mp hf with h' | h'
        · exact h.ordStop f h'
        · obtain rfl := List.mem_singleton.mp h'
          exact hcapStop
      · intro f hf a ha
        rw [hOrd] at hf
        rcases List.mem_append.mp hf with h' | h'
        · exact h.ordArgs f h' a ha
        · have hfc : f = cap := List.mem_singleton.mp h'
          rw [hfc] at ha
          exact h.capArgs cap hcap a ha
      · intro a ha
        rw [hArgs] at ha
        exact h.argStop a ha
      · intro cp hcp
        rw [hCap] at hcp
        exact Option.noConfusion hcp
      · intro cp hcp
        rw [hCap] at hcp
        exact Option.noConfusion hcp
      · intro cp hcp
        rw [hCap] at hcp
        exact Option.noConfusion hcp
      · intro cp hcp
        rw [hCap] at hcp
        exact Option.noConfusion hcp
      · rw [hOrd]
        refine List.pairwise_append.mpr ⟨h.ordered, ?_, ?_⟩
        · exact List.Pairwise.cons (fun b hb => absurd hb (List.not_mem_nil b))
            List.Pairwise.nil
        · intro f hf g hg
          have hgc : g = cap := List.mem_singleton.mp hg
          rw [hgc]
          exact Or.inl (h.capOrd cap hcap f hf)
      · intro g hg f hf a ha
        rw [hAll] at hg hf
        exact h.sep g hg f hf a ha
      · intro f hf a ha hca
        rw [hOrd] at hf
        rcases List.mem_append.mp hf with h' | h'
        · have hbase := h.secOrd f h' a ha hca
          exact flushFocus_section_snap (some cap) fs f hbase
        · have hfc : f = cap := List.mem_singleton.mp h'
          rw [hfc] at ha
          have hbase := h.secCap cap hcap a ha hca
          rw [hfc]
          exact flushFocus_section_captureRef cap fs hbase
      · intro cp hcp
        rw [hCap] at hcp
        exact Option.noConfusion hcp
      · intro a ha hca hown
        rw [hArgs] at ha
        have hown' : ∀ f ∈ flagsAll c, a ∉ f.Args := by
          intro f hfm
          apply hown
          rw [hAll]
          exact hfm
        have hbase := h.secTop a ha hca hown'
        exact flushFocus_section_none (some cap) fs hbase
      · intro hfoc
        have hf0 : fs.Focus = none := flushFocus_focus_back _ _ hfoc
        have hbase := h.focusSec hf0
        exact flushFocus_section_none (some cap) fs hbase
      · intro hfoc f hfm
        have hf0 : fs.Focus = none := flushFocus_focus_back _ _ hfoc
        rw [hAll] at hfm
        exact h.focusFlags hf0 f hfm
      · intro hfoc
        exfalso
        rcases hv : fs.Focus with _ | r
        · simp [flushFocus, hv] at hfoc
        · cases r <;> simp [flushFocus, hv] at hfoc

/-- The scan loop carries the Section-tracking invariant from any state to
the end of the scan. -/
theorem parseLoop_scan (line : Str) (cursor : Int) :
    ∀ fuel i c fs, ScanInv line cursor i c fs →
      ExitInv line cursor (parseLoop line cursor fuel i c fs).1
        (parseLoop line cursor fuel i c fs).2 := by
  intro fuel
  induction fuel with
  | zero =>
      intro i c fs h
      exact ⟨h.capOrd, h.ordered, h.sep, h.secOrd, h.secCap, h.secTop,
        h.focusSec, h.focusFlags, h.focusCapRef⟩
  | succ m ih =>
      intro i c fs h
      by_cases h1 : i < line.length
      · by_cases h2 : line.getD i ' ' = '-'
        · obtain ⟨hst, hps, hsl, hargs, hpr, hrl, hsr⟩ := parseFlag_bounds line i h1
          have hF := flushInv line cursor i c fs h h1
          have hCap : (flushCore c).capture = none := flushCore_capture_none c
          have hmemF : ∀ x : Flag, x ∈ (flushCore c).FlagsOrdered →
              x ∈ flagsAll (flushCore c) := by
            intro x hx
            show x ∈ (flushCore c).FlagsOrdered ++ (flushCore c).capture.toList
            rw [hCap]
            simpa using hx
          have hbackF : ∀ x : Flag, x ∈ flagsAll (flushCore c) →
              x ∈ (flushCore c).FlagsOrdered := by
            intro x hx
            have hx2 : x ∈ (flushCore c).FlagsOrdered ++
                (flushCore c).capture.toList := hx
            rw [hCap] at hx2
            simpa using hx2
          by_cases h3 : (parseFlag line i).1.long = true ∨
              (parseFlag line i).1.value.length = 1
          · simp only [parseLoop, if_pos h1, if_pos h2, if_pos h3]
            apply ih
            refine ⟨?_, ?_, ?_, ?_, ?_, ?_, ?_, ?_, ?_, ?_, ?_, ?_, ?_, ?_, ?_⟩
            · intro f hf
              have := hF.ordStop f hf
              omega
            · intro f hf a ha
              have := hF.ordArgs f hf a ha
              omega
            · intro a ha
              have := hF.argStop a ha
              omega
            · intro cp hcp f hf
              injection hcp with hcp
              rw [← hcp, hst]
              exact hF.ordStop f hf
            · intro cp hcp a ha
              injection hcp with hcp
              rw [← hcp, hargs] at ha
              exact absurd ha (List.not_mem_nil a)
            · intro cp hcp
              injection hcp with hcp
              rw [← hcp]
              rcases hsr with h' | ⟨h'a, h'b⟩
              · exact Or.inl (by omega)
              · exact Or.inr ⟨h'a, by omega⟩
            · intro cp hcp hne
              injection hcp with hcp
              rw [← hcp, hargs] at hne
              exact absurd rfl hne
            · exact hF.ordered
            · intro g hg f hf a ha
              have hg2 : g ∈ (flushCore c).FlagsOrdered ++
                  [(parseFlag line i).1] := hg
              have hf2 : f ∈ (flushCore c).FlagsOrdered ++
                  [(parseFlag line i).1] := hf
              rcases List.mem_append.mp hf2 with hf' | hf'
              · rcases List.mem_append.mp hg2 with hg' | hg'
                · exact hF.sep g (hmemF g hg') f (hmemF f hf') a ha
                · have hgc : g = (parseFlag line i).1 := List.mem_singleton.mp hg'
                  refine Or.inr ?_
                  rw [hgc, hst]
                  exact hF.ordArgs f hf' a ha
              · have hfc : f = (parseFlag line i).1 := List.mem_singleton.mp hf'
                rw [hfc, hargs] at ha
                exact absurd ha (List.not_mem_nil a)
            · intro f hf a ha hca
              have haStop := hF.ordArgs f hf a ha
              have hgNeg : ¬ (((parseFlag line i).1.start : Int) ≤ cursor ∧
                  cursor ≤ ((parseFlag line i).1.stop : Int)) := by
                rw [hst]
                rintro ⟨hA, -⟩
                have hB : cursor ≤ (a.stop : Int) := hca.2
                have hC : (a.stop : Int) < (i : Int) := by exact_mod_cast haStop
                omega
              rw [if_neg hgNeg]
              exact hF.secOrd f hf a ha hca
            · intro cp hcp a ha hca
              injection hcp with hcp
              rw [← hcp, hargs] at ha
              exact absurd ha (List.not_mem_nil a)
            · intro a ha hca hown
              have haStop := hF.argStop a ha
              have hgNeg : ¬ (((parseFlag line i).1.start : Int) ≤ cursor ∧
                  cursor ≤ ((parseFlag line i).1.stop : Int)) := by
                rw [hst]
                rintro ⟨hA, -⟩
                have hB : cursor ≤ (a.stop : Int) := hca.2
                have hC : (a.stop : Int) < (i : Int) := by exact_mod_cast haStop
                omega
              rw [if_neg hgNeg]
              refine hF.secTop a ha hca ?_
              intro f hfm
              refine hown f ?_
              show f ∈ (flushCore c).FlagsOrdered ++ [(parseFlag line i).1]
              exact List.mem_append.mpr (Or.inl (hbackF f hfm))
            · intro hfoc
              by_cases hg : ((parseFlag line i).1.start : Int) ≤ cursor ∧
                  cursor ≤ ((parseFlag line i).1.stop : Int)
              · rw [if_pos hg] at hfoc
                exact Option.noConfusion hfoc
              · rw [if_neg hg] at hfoc ⊢
                exact hF.focusSec hfoc
            · intro hfoc f hf
              by_cases hg : ((parseFlag line i).1.start : Int) ≤ cursor ∧
                  cursor ≤ ((parseFlag line i).1.stop : Int)
              · rw [if_pos hg] at hfoc
                exact Option.noConfusion hfoc
              · rw [if_neg hg] at hfoc
                have hf2 : f ∈ (flushCore c).FlagsOrdered ++
                    [(parseFlag line i).1] := hf
                rcases List.mem_append.mp hf2 with h' | h'
                · exact hF.focusFlags hfoc f (hmemF f h')
                · have hfc : f = (parseFlag line i).1 := List.mem_singleton.mp h'
                  rw [hfc]
                  exact hg
            · intro hfoc
              rfl
          · simp only [parseLoop, if_pos h1, if_pos h2, if_neg h3]
            apply ih
            have hPOrd : (pushFlags (flushCore c)
                (bundleFlags (parseFlag line i).1 (parseFlag line i).2)).FlagsOrdered =
                (flushCore c).FlagsOrdered ++
                  bundleFlags (parseFlag line i).1 (parseFlag line i).2 :=
              pushFlags_ordered _ _
            have hPArgs : (pushFlags (flushCore c)
                (bundleFlags (parseFlag line i).1 (parseFlag line i).2)).Arguments =
                (flushCore c).Arguments := pushFlags_arguments _ _
            have hrstop : (parseFlag line i).2 ≤ (parseFlag line i).1.stop := by
              rcases hsr with h' | ⟨h'a, h'b⟩ <;> omega
            have hmemB : ∀ x : Flag,
                x ∈ flagsAll { pushFlags (flushCore c)
                    (bundleFlags (parseFlag line i).1 (parseFlag line i).2) with
                  capture := none } ↔
                x ∈ (flushCore c).FlagsOrdered ++
                  bundleFlags (parseFlag line i).1 (parseFlag line i).2 := by
              intro x
              constructor
              · intro hx
                have hx2 : x ∈ (pushFlags (flushCore c)
                    (bundleFlags (parseFlag line i).1
                      (parseFlag line i).2)).FlagsOrdered ++ ([] : List Flag) := hx
                rw [hPOrd] at hx2
                simpa using hx2
              · intro hx
                show x ∈ (pushFlags (flushCore c)
                  (bundleFlags (parseFlag line i).1
                    (parseFlag line i).2)).FlagsOrdered ++ ([] : List Flag)
                rw [hPOrd]
                simpa using hx
            refine ⟨?_, ?_, ?_, ?_, ?_, ?_, ?_, ?_, ?_, ?_, ?_, ?_, ?_, ?_, ?_⟩
            · intro f hf
              have hf2 : f ∈ (flushCore c).FlagsOrdered ++
                  bundleFlags (parseFlag line i).1 (parseFlag line i).2 := by
                rw [← hPOrd]; exact hf
              rcases List.mem_append.mp hf2 with h' | h'
              · have := hF.ordStop f h'
                omega
              · obtain ⟨-, hgt, -⟩ := bundleFlags_mem _ _ f h'
                omega
            · intro f hf a ha
              have hf2 : f ∈ (flushCore c).FlagsOrdered ++
                  bundleFlags (parseFlag line i).1 (parseFlag line i).2 := by
                rw [← hPOrd]; exact hf
              rcases List.mem_append.mp hf2 with h' | h'
              · have := hF.ordArgs f h' a ha
                omega
              · obtain ⟨-, -, hga⟩ := bundleFlags_mem _ _ f h'
                rw [hga] at ha
                exact absurd ha (List.not_mem_nil a)
            · intro a ha
              have ha2 : a ∈ (flushCore c).Arguments := by
                rw [← hPArgs]; exact ha
              have := hF.argStop a ha2
              omega
            · intro cp hcp
              exact Option.noConfusion hcp
            · intro cp hcp
              exact Option.noConfusion hcp
            · intro cp hcp
              exact Option.noConfusion hcp
            · intro cp hcp
              exact Option.noConfusion hcp
            · show List.Pairwise flagBefore (pushFlags (flushCore c)
                (bundleFlags (parseFlag line i).1 (parseFlag line i).2)).FlagsOrdered
              rw [hPOrd]
              refine List.pairwise_append.mpr
                ⟨hF.ordered, bundleFlags_pairwise _ _, ?_⟩
              intro f hf g hg
              obtain ⟨hgs, hgt, -⟩ := bundleFlags_mem _ _ g hg
              refine Or.inl ?_
              rw [hgs, hst]
              exact hF.ordStop f hf
            · intro g hg f hf a ha
              rcases List.mem_append.mp ((hmemB g).mp hg) with hg' | hg'
              · rcases List.mem_append.mp ((hmemB f).mp hf) with hf' | hf'
                · exact hF.sep g (hmemF g hg') f (hmemF f hf') a ha
                · obtain ⟨-, -, hfa⟩ := bundleFlags_mem _ _ f hf'
                  rw [hfa] at ha
                  exact absurd ha (List.not_mem_nil a)
              · rcases List.mem_append.mp ((hmemB f).mp hf) with hf' | hf'
                · obtain ⟨hgs, -, -⟩ := bundleFlags_mem _ _ g hg'
                  refine Or.inr ?_
                  rw [hgs, hst]
                  exact hF.ordArgs f hf' a ha
                · obtain ⟨-, -, hfa⟩ := bundleFlags_mem _ _ f hf'
                  rw [hfa] at ha
                  exact absurd ha (List.not_mem_nil a)
            · intro f hf a ha hca
              have hf2 : f ∈ (flushCore c).FlagsOrdered ++
                  bundleFlags (parseFlag line i).1 (parseFlag line i).2 := by
                rw [← hPOrd]; exact hf
              rcases List.mem_append.mp hf2 with h' | h'
              · have haStop := hF.ordArgs f h' a ha
                have hgNeg : ¬ (((parseFlag line i).1.start : Int) ≤ cursor ∧
                    cursor ≤ ((parseFlag line i).1.stop : Int)) := by
                  rw [hst]
                  rintro ⟨hA, -⟩
                  have hB : cursor ≤ (a.stop : Int) := hca.2
                  have hC : (a.stop : Int) < (i : Int) := by exact_mod_cast haStop
                  omega
                rw [if_neg hgNeg]
                exact hF.secOrd f h' a ha hca
              · obtain ⟨-, -, hfa⟩ := bundleFlags_mem _ _ f h'
                rw [hfa] at ha
                exact absurd ha (List.not_mem_nil a)
            · intro cp hcp
              exact Option.noConfusion hcp
            · intro a ha hca hown
              have ha2 : a ∈ (flushCore c).Arguments := by
                rw [← hPArgs]; exact ha
              have haStop := hF.argStop a ha2
              have hgNeg : ¬ (((parseFlag line i).1.start : Int) ≤ cursor ∧
                  cursor ≤ ((parseFlag line i).1.stop : Int)) := by
                rw [hst]
                rintro ⟨hA, -⟩
                have hB : cursor ≤ (a.stop : Int) := hca.2
                have hC : (a.stop : Int) < (i : Int) := by exact_mod_cast haStop
                omega
              rw [if_neg hgNeg]
              refine hF.secTop a ha2 hca ?_
              intro f hfm
              refine hown f ?_
              exact (hmemB f).mpr (List.mem_append.mpr (Or.inl (hbackF f hfm)))
            · intro hfoc
              by_cases hg : ((parseFlag line i).1.start : Int) ≤ cursor ∧
                  cursor ≤ ((parseFlag line i).1.stop : Int)
              · rw [if_pos hg] at hfoc
                exact Option.noConfusion hfoc
              · rw [if_neg hg] at hfoc ⊢
                exact hF.focusSec hfoc
            · intro hfoc f hf
              by_cases hg : ((parseFlag line i).1.start : Int) ≤ cursor ∧
                  cursor ≤ ((parseFlag line i).1.stop : Int)
              · rw [if_pos hg] at hfoc
                exact Option.noConfusion hfoc
              · rw [if_neg hg] at hfoc
                rcases List.mem_append.mp ((hmemB f).mp hf) with h' | h'
                · exact hF.focusFlags hfoc f (hmemF f h')
                · obtain ⟨hgs, hgt, -⟩ := bundleFlags_mem _ _ f h'
                  intro hcf
                  apply hg
                  constructor
                  · have hA := hcf.1
                    rw [hgs] at hA
                    exact hA
                  · have hB := hcf.2
                    rw [hgt] at hB
                    have hC : ((parseFlag line i).2 : Int) ≤
                        ((parseFlag line i).1.stop : Int) := by
                      exact_mod_cast hrstop
                    omega
            · intro hfoc
              exfalso
              by_cases hg : ((parseFlag line i).1.start : Int) ≤ cursor ∧
                  cursor ≤ ((parseFlag line i).1.stop : Int)
              · rw [if_pos hg] at hfoc
                injection hfoc with h'
                exact NodeRef.noConfusion h'
              · rw [if_neg hg] at hfoc
                cases hcapv : c.capture with
                | none =>
                    rw [hcapv] at hfoc
                    have hcr := h.focusCapRef hfoc
                    rw [hcapv] at hcr
                    simp at hcr
                | some cap =>
                    rw [hcapv] at hfoc
                    rcases hv : fs.Focus with _ | rr
                    · simp [flushFocus, hv] at hfoc
                    · cases rr <;> simp [flushFocus, hv] at hfoc
        · obtain ⟨hq1, hq2, hq3⟩ := parseArgs_pos line i (le_of_lt h1)
          have hnd := parseArgs_nextDash line i (le_of_lt h1)
          simp only [parseLoop, if_pos h1, if_neg h2]
          apply ih
          cases hcap : c.capture with
          | none =>
              have hmemc : ∀ x : Flag, x ∈ c.FlagsOrdered → x ∈ flagsAll c := by
                intro x hx
                show x ∈ c.FlagsOrdered ++ c.capture.toList
                rw [hcap]
                simpa using hx
              refine ⟨?_, ?_, ?_, ?_, ?_, ?_, ?_, ?_, ?_, ?_, ?_, ?_, ?_, ?_, ?_⟩
              · intro f hf
                have := h.ordStop f hf
                omega
              · intro f hf a ha
                have := h.ordArgs f hf a ha
                omega
              · intro a ha
                have ha2 : a ∈ c.Arguments ++ (parseArgs line i).1 := ha
                rcases List.mem_append.mp ha2 with h' | h'
                · have := h.argStop a h'
                  omega
                · have := (hq3 a h').2.2
                  omega
              · intro cp hcp
                exact Option.noConfusion hcp
              · intro cp hcp
                exact Option.noConfusion hcp
              · intro cp hcp
                exact Option.noConfusion hcp
              · intro cp hcp
                exact Option.noConfusion hcp
              · exact h.ordered
              · intro g hg f hf a ha
                have hg2 : g ∈ c.FlagsOrdered ++ ([] : List Flag) := hg
                have hf2 : f ∈ c.FlagsOrdered ++ ([] : List Flag) := hf
                have hg3 : g ∈ c.FlagsOrdered := by simpa using hg2
                have hf3 : f ∈ c.FlagsOrdered := by simpa using hf2
                exact h.sep g (hmemc g hg3) f (hmemc f hf3) a ha
              · intro f hf a ha hca
                have hnonew : ∀ x ∈ (parseArgs line i).1,
                    ¬ argContains cursor x := by
                  intro x hx hcx
                  have h1x := (hq3 x hx).1
                  have h2x := h.ordArgs f hf a ha
                  have hA : (x.start : Int) ≤ cursor := hcx.1
                  have hB : cursor ≤ (a.stop : Int) := hca.2
                  have hC : (a.stop : Int) < (i : Int) := by exact_mod_cast h2x
                  have hD : (i : Int) ≤ (x.start : Int) := by exact_mod_cast h1x
                  omega
                have heq := focusScan_no_hit cursor
                  ((none : Option Flag).isSome) (parseArgs line i).1 fs hnonew
                rw [heq]
                exact h.secOrd f hf a ha hca
              · intro cp hcp
                exact Option.noConfusion hcp
              · intro a ha hca hown
                have ha2 : a ∈ c.Arguments ++ (parseArgs line i).1 := ha
                rcases List.mem_append.mp ha2 with h' | h'
                · have haStop := h.argStop a h'
                  have hnonew : ∀ x ∈ (parseArgs line i).1,
                      ¬ argContains cursor x := by
                    intro x hx hcx
                    have h1x := (hq3 x hx).1
                    have hA : (x.start : Int) ≤ cursor := hcx.1
                    have hB : cursor ≤ (a.stop : Int) := hca.2
                    have hC : (a.stop : Int) < (i : Int) := by
                      exact_mod_cast haStop
                    have hD : (i : Int) ≤ (x.start : Int) := by
                      exact_mod_cast h1x
                    omega
                  have heq := focusScan_no_hit cursor
                    ((none : Option Flag).isSome) (parseArgs line i).1 fs hnonew
                  rw [heq]
                  refine h.secTop a h' hca ?_
                  intro f hfm
                  have hfm2 : f ∈ c.FlagsOrdered ++ c.capture.toList := hfm
                  rw [hcap] at hfm2
                  have hf3 : f ∈ c.FlagsOrdered := by simpa using hfm2
                  refine hown f ?_
                  show f ∈ c.FlagsOrdered ++ ((none : Option Flag).toList)
                  simpa using hf3
                · exact focusScan_nocapture_hit cursor (parseArgs line i).1 fs
                    ⟨a, h', hca⟩
              · intro hfoc
                by_cases hhit : ∃ x ∈ (parseArgs line i).1, argContains cursor x
                · have hS := focusScan_hit_focus cursor
                    ((none : Option Flag).isSome) (parseArgs line i).1 fs hhit
                  rw [hfoc] at hS
                  simp at hS
                · push_neg at hhit
                  have heq := focusScan_no_hit cursor
                    ((none : Option Flag).isSome) (parseArgs line i).1 fs hhit
                  rw [heq] at hfoc ⊢
                  exact h.focusSec hfoc
              · intro hfoc f hf
                by_cases hhit : ∃ x ∈ (parseArgs line i).1, argContains cursor x
                · have hS := focusScan_hit_focus cursor
                    ((none : Option Flag).isSome) (parseArgs line i).1 fs hhit
                  rw [hfoc] at hS
                  simp at hS
                · push_neg at hhit
                  have heq := focusScan_no_hit cursor
                    ((none : Option Flag).isSome) (parseArgs line i).1 fs hhit
                  rw [heq] at hfoc
                  have hf2 : f ∈ c.FlagsOrdered ++ ([] : List Flag) := hf
                  have hf3 : f ∈ c.FlagsOrdered := by simpa using hf2
                  exact h.focusFlags hfoc f (hmemc f hf3)
              · intro hfoc
                have hback := focusScan_focus_capref cursor _
                  (parseArgs line i).1 fs hfoc
                have hcr := h.focusCapRef hback
                rw [hcap] at hcr
                exact hcr
          | some cap =>
              have hcapArgsNil : cap.Args = [] := by
                by_contra hne
                rcases h.capNext cap hcap hne with h' | h'
                · omega
                · exact h2 h'
              have hmemc : ∀ x : Flag, x ∈ c.FlagsOrdered → x ∈ flagsAll c := by
                intro x hx
                show x ∈ c.FlagsOrdered ++ c.capture.toList
                rw [hcap]
                exact List.mem_append.mpr (Or.inl hx)
              have hcapmem : cap ∈ flagsAll c := by
                show cap ∈ c.FlagsOrdered ++ c.capture.toList
                rw [hcap]
                exact List.mem_append.mpr (Or.inr (by simp))
              refine ⟨?_, ?_, ?_, ?_, ?_, ?_, ?_, ?_, ?_, ?_, ?_, ?_, ?_, ?_, ?_⟩
              · intro f hf
                have := h.ordStop f hf
                omega
              · intro f hf a ha
                have := h.ordArgs f hf a ha
                omega
              · intro a ha
                have ha2 : a ∈ c.Arguments ++ (parseArgs line i).1 := ha
                rcases List.mem_append.mp ha2 with h' | h'
                · have := h.argStop a h'
                  omega
                · have := (hq3 a h').2.2
                  omega
              · intro cp hcp f hf
                have hcp2 : some { cap with Args := (parseArgs line i).1 } =
                    some cp := hcp
                injection hcp2 with h'
                rw [← h']
                have := h.capOrd cap hcap f hf
                exact this
              · intro cp hcp a ha
                have hcp2 : some { cap with Args := (parseArgs line i).1 } =
                    some cp := hcp
                injection hcp2 with h'
                rw [← h'] at ha
                have ha2 : a ∈ (parseArgs line i).1 := ha
                have := (hq3 a ha2).2.2
                omega
              · intro cp hcp
                have hcp2 : some { cap with Args := (parseArgs line i).1 } =
                    some cp := hcp
                injection hcp2 with h'
                rw [← h']
                show cap.stop < (parseArgs line i).2 + 1 ∨
                  (cap.stop = line.length ∧
                    line.length ≤ (parseArgs line i).2 + 1)
                rcases h.capStop cap hcap with h' | ⟨h'a, h'b⟩
                · exact Or.inl (by omega)
                · exact absurd h'b (by omega)
              · intro cp hcp hne
                exact hnd
              · exact h.ordered
              · intro g hg f hf a ha
                have hg2 : g ∈ c.FlagsOrdered ++
                    [{ cap with Args := (parseArgs line i).1 }] := hg
                have hf2 : f ∈ c.FlagsOrdered ++
                    [{ cap with Args := (parseArgs line i).1 }] := hf
                rcases List.mem_append.mp hf2 with hf' | hf'
                · rcases List.mem_append.mp hg2 with hg' | hg'
                  · exact h.sep g (hmemc g hg') f (hmemc f hf') a ha
                  · have hgc : g = { cap with Args := (parseArgs line i).1 } :=
                      List.mem_singleton.mp hg'
                    rw [hgc]
                    show cap.stop < a.start ∨ a.stop < cap.start
                    exact h.sep cap hcapmem f (hmemc f hf') a ha
                · have hfc : f = { cap with Args := (parseArgs line i).1 } :=
                    List.mem_singleton.mp hf'
                  rw [hfc] at ha
                  have ha2 : a ∈ (parseArgs line i).1 := ha
                  have hia := (hq3 a ha2).1
                  rcases List.mem_append.mp hg2 with hg' | hg'
                  · refine Or.inl ?_
                    have := h.ordStop g hg'
                    omega
                  · have hgc : g = { cap with Args := (parseArgs line i).1 } :=
                      List.mem_singleton.mp hg'
                    rw [hgc]
                    show cap.stop < a.start ∨ a.stop < cap.start
                    rcases h.capStop cap hcap with h' | ⟨h'a, h'b⟩
                    · exact Or.inl (by omega)
                    · exact absurd h'b (by omega)
              · intro f hf a ha hca
                have hnonew : ∀ x ∈ (parseArgs line i).1,
                    ¬ argContains cursor x := by
                  intro x hx hcx
                  have h1x := (hq3 x hx).1
                  have h2x := h.ordArgs f hf a ha
                  have hA : (x.start : Int) ≤ cursor := hcx.1
                  have hB : cursor ≤ (a.stop : Int) := hca.2
                  have hC : (a.stop : Int) < (i : Int) := by exact_mod_cast h2x
                  have hD : (i : Int) ≤ (x.start : Int) := by exact_mod_cast h1x
                  omega
                have heq := focusScan_no_hit cursor
                  ((some cap : Option Flag).isSome) (parseArgs line i).1 fs hnonew
                rw [heq]
                exact h.secOrd f hf a ha hca
              · intro cp hcp a ha hca
                have hcp2 : some { cap with Args := (parseArgs line i).1 } =
                    some cp := hcp
                injection hcp2 with h'
                rw [← h'] at ha
                have ha2 : a ∈ (parseArgs line i).1 := ha
                exact focusScan_capture_hit cursor (parseArgs line i).1 fs
                  ⟨a, ha2, hca⟩
              · intro a ha hca hown
                have ha2 : a ∈ c.Arguments ++ (parseArgs line i).1 := ha
                rcases List.mem_append.mp ha2 with h' | h'
                · have haStop := h.argStop a h'
                  have hnonew : ∀ x ∈ (parseArgs line i).1,
                      ¬ argContains cursor x := by
                    intro x hx hcx
                    have h1x := (hq3 x hx).1
                    have hA : (x.start : Int) ≤ cursor := hcx.1
                    have hB : cursor ≤ (a.stop : Int) := hca.2
                    have hC : (a.stop : Int) < (i : Int) := by
                      exact_mod_cast haStop
                    have hD : (i : Int) ≤ (x.start : Int) := by
                      exact_mod_cast h1x
                    omega
                  have heq := focusScan_no_hit cursor
                    ((some cap : Option Flag).isSome) (parseArgs line i).1 fs
                    hnonew
                  rw [heq]
                  refine h.secTop a h' hca ?_
                  intro f hfm
                  have hfm2 : f ∈ c.FlagsOrdered ++ c.capture.toList := hfm
                  rw [hcap] at hfm2
                  rcases List.mem_append.mp hfm2 with hf' | hf'
                  · refine hown f ?_
                    show f ∈ c.FlagsOrdered ++
                      [{ cap with Args := (parseArgs line i).1 }]
                    exact List.mem_append.mpr (Or.inl hf')
                  · have hfc : f = cap := by simpa using hf'
                    rw [hfc, hcapArgsNil]
                    exact List.not_mem_nil a
                · have hnotin := hown { cap with Args := (parseArgs line i).1 }
                    (by
                      show { cap with Args := (parseArgs line i).1 } ∈
                        c.FlagsOrdered ++
                          [{ cap with Args := (parseArgs line i).1 }]
                      exact List.mem_append.mpr
                        (Or.inr (List.mem_singleton.mpr rfl)))
                  exact absurd h' hnotin
              · intro hfoc
                by_cases hhit : ∃ x ∈ (parseArgs line i).1, argContains cursor x
                · have hS := focusScan_hit_focus cursor
                    ((some cap : Option Flag).isSome) (parseArgs line i).1 fs hhit
                  rw [hfoc] at hS
                  simp at hS
                · push_neg at hhit
                  have heq := focusScan_no_hit cursor
                    ((some cap : Option Flag).isSome) (parseArgs line i).1 fs hhit
                  rw [heq] at hfoc ⊢
                  exact h.focusSec hfoc
              · intro hfoc f hf
                by_cases hhit : ∃ x ∈ (parseArgs line i).1, argContains cursor x
                · have hS := focusScan_hit_focus cursor
                    ((some cap : Option Flag).isSome) (parseArgs line i).1 fs hhit
                  rw [hfoc] at hS
                  simp at hS
                · push_neg at hhit
                  have heq := focusScan_no_hit cursor
                    ((some cap : Option Flag).isSome) (parseArgs line i).1 fs hhit
                  rw [heq] at hfoc
                  have hf2 : f ∈ c.FlagsOrdered ++
                      [{ cap with Args := (parseArgs line i).1 }] := hf
                  rcases List.mem_append.mp hf2 with h' | h'
                  · exact h.focusFlags hfoc f (hmemc f h')
                  · have hfc : f = { cap with Args := (parseArgs line i).1 } :=
                      List.mem_singleton.mp h'
                    rw [hfc]
                    have := h.focusFlags hfoc cap hcapmem
                    exact this
              · intro hfoc
                rfl
      · simp only [parseLoop, if_neg h1]
        exact ⟨h.capOrd, h.ordered, h.sep, h.secOrd, h.secCap, h.secTop,
          h.focusSec, h.focusFlags, h.focusCapRef⟩

theorem C8_amended_witness : (ParseLine ("x").toList 5).Focus = none :=
  C8_amended ("x").toList 5 (Or.inr (by decide))

/-- Two arguments with the same fields are equal. -/
theorem Argument.ext_fields (x y : Argument) (h1 : x.start = y.start)
    (h2 : x.stop = y.stop) (h3 : x.value = y.value) : x = y := by
  obtain ⟨s1, t1, v1⟩ := x
  obtain ⟨s2, t2, v2⟩ := y
  simp at h1 h2 h3
  subst h1
  subst h2
  subst h3
  rfl

/-- The scan invariant holds at the start of the scan. -/
theorem scanInv_init (line : Str) (cursor : Int) : ScanInv line cursor 0 {} {} := by
  refine ⟨?_, ?_, ?_, ?_, ?_, ?_, ?_, ?_, ?_, ?_, ?_, ?_, ?_, ?_, ?_⟩
  · intro f hf
    exact absurd hf (List.not_mem_nil f)
  · intro f hf
    exact absurd hf (List.not_mem_nil f)
  · intro a ha
    exact absurd ha (List.not_mem_nil a)
  · intro cp hcp
    exact Option.noConfusion hcp
  · intro cp hcp
    exact Option.noConfusion hcp
  · intro cp hcp
    exact Option.noConfusion hcp
  · intro cp hcp
    exact Option.noConfusion hcp
  · exact List.Pairwise.nil
  · intro g hg f hf a ha
    have hg2 : g ∈ ([] : List Flag) ++ ([] : List Flag) := hg
    simp at hg2
  · intro f hf
    exact absurd hf (List.not_mem_nil f)
  · intro cp hcp
    exact Option.noConfusion hcp
  · intro a ha
    exact absurd ha (List.not_mem_nil a)
  · intro hfoc
    rfl
  · intro hfoc f hf
    have hf2 : f ∈ ([] : List Flag) ++ ([] : List Flag) := hf
    simp at hf2
  · intro hfoc
    exact Option.noConfusion hfoc

/-- After the final flush the ordered flag list is pairwise in textual
order. -/
theorem exit_pairwise (line : Str) (cursor : Int) (c : Core) (fs : FocusSt)
    (hX : ExitInv line cursor c fs) :
    List.Pairwise flagBefore (flushCore c).FlagsOrdered := by
  rw [flushCore_ordered_all]
  show List.Pairwise flagBefore (c.FlagsOrdered ++ c.capture.toList)
  cases hcap : c.capture with
  | none => simpa using hX.ordered
  | some cap =>
      refine List.pairwise_append.mpr ⟨hX.ordered, ?_, ?_⟩
      · simp
      · intro f hf g hg
        have hgc : g = cap := by simpa using hg
        rw [hgc]
        exact Or.inl (hX.capOrd cap hcap f hf)

/-- After the final flush every flag span is disjoint from every owned
argument span. -/
theorem exit_sep_final (line : Str) (cursor : Int) (c : Core) (fs : FocusSt)
    (hX : ExitInv line cursor c fs) :
    ∀ g ∈ (flushCore c).FlagsOrdered, ∀ f ∈ (flushCore c).FlagsOrdered,
      ∀ a ∈ f.Args, g.stop < a.start ∨ a.stop < g.start := by
  intro g hg f hf a ha
  rw [flushCore_ordered_all] at hg hf
  exact hX.sep g hg f hf a ha

/-- A cursor hit inside a flag-owned argument resolves the tracked Section
to the owning flag. -/
theorem exit_snap (line : Str) (cursor : Int) (c : Core) (fs : FocusSt)
    (hX : ExitInv line cursor c fs) :
    ∀ f ∈ (flushCore c).FlagsOrdered, ∀ a ∈ f.Args, argContains cursor a →
      resolveSection (flushFocus c.capture fs).SectionR = some f := by
  intro f hf a ha hca
  rw [flushCore_ordered_all] at hf
  have hf2 : f ∈ c.FlagsOrdered ++ c.capture.toList := hf
  rcases List.mem_append.mp hf2 with h' | h'
  · rw [flushFocus_section_snap c.capture fs f (hX.secOrd f h' a ha hca)]
    rfl
  · cases hcap : c.capture with
    | none =>
        rw [hcap] at h'
        simp at h'
    | some cap =>
        rw [hcap] at h'
        have hfc : f = cap := by simpa using h'
        rw [hfc] at ha
        have hbase := hX.secCap cap hcap a ha hca
        rw [flushFocus_section_captureRef cap fs hbase, hfc]
        rfl

/-- A cursor hit inside a top-level argument owned by no flag leaves the
tracked Section nil. -/
theorem exit_unowned (line : Str) (cursor : Int) (c : Core) (fs : FocusSt)
    (hX : ExitInv line cursor c fs) :
    ∀ a ∈ (flushCore c).Arguments, argContains cursor a →
      (∀ f ∈ (flushCore c).FlagsOrdered, a ∉ f.Args) →
      resolveSection (flushFocus c.capture fs).SectionR = none := by
  intro a ha hca hown
  rw [flushCore_arguments] at ha
  have h0 : fs.SectionR = none := hX.secTop a ha hca (by
    intro f hfm
    apply hown
    rw [flushCore_ordered_all]
    exact hfm)
  rw [flushFocus_section_none c.capture fs h0]
  rfl

/-- An unset resolved Focus means no containment event ever fired: the
tracked Section is nil and no recorded flag span contains the cursor. -/
theorem exit_focus_none (line : Str) (cursor : Int) (c : Core) (fs : FocusSt)
    (hX : ExitInv line cursor c fs)
    (hres : resolveFocus (flushFocus c.capture fs).Focus = none) :
    resolveSection (flushFocus c.capture fs).SectionR = none ∧
    ∀ f ∈ (flushCore c).FlagsOrdered, ¬ flagContains cursor f := by
  have hfoc : (flushFocus c.capture fs).Focus = none := by
    rcases hv : (flushFocus c.capture fs).Focus with _ | r
    · rfl
    · exfalso
      cases r with
      | flagSnap f =>
          rw [hv] at hres
          simp [resolveFocus] at hres
      | argSnap a =>
          rw [hv] at hres
          simp [resolveFocus] at hres
      | captureRef =>
          cases hcap : c.capture with
          | none =>
              rw [hcap] at hv
              have hcr := hX.focusCapRef hv
              rw [hcap] at hcr
              simp at hcr
          | some cap =>
              rw [hcap] at hv
              rcases hw : fs.Focus with _ | rr
              · simp [flushFocus, hw] at hv
              · cases rr <;> simp [flushFocus, hw] at hv
  have hf0 : fs.Focus = none := flushFocus_focus_back c.capture fs hfoc
  constructor
  · rw [flushFocus_section_none c.capture fs (hX.focusSec hf0)]
    rfl
  · intro f hf
    rw [flushCore_ordered_all] at hf
    exact hX.focusFlags hf0 f hf

/-- The general Section-resolution behaviour of ParseLine: a stored flag
containing the cursor wins; a hit inside a flag-owned argument yields the
owning flag; when the Focus is nil (no scanned token contained the cursor),
or when the hit lies in an unowned top-level argument (or the promoted
Command) and no stored flag contains the cursor, Section is the nearest
stored flag ending at or before the cursor. -/
theorem ParseLine_section_master (line : Str) (cursor : Int) :
    ((∃ f ∈ (ParseLine line cursor).FlagsOrdered, flagContains cursor f) →
      ∃ f ∈ (ParseLine line cursor).FlagsOrdered, flagContains cursor f ∧
        (ParseLine line cursor).Section = some f) ∧
    (∀ f ∈ (ParseLine line cursor).FlagsOrdered, ∀ a ∈ f.Args,
      argContains cursor a → (ParseLine line cursor).Section = some f) ∧
    ((ParseLine line cursor).Focus = none →
      (ParseLine line cursor).Section =
        closestLeftSpec cursor (ParseLine line cursor).FlagsOrdered) ∧
    (∀ a : Argument,
      (a ∈ (ParseLine line cursor).Arguments ∨
        (ParseLine line cursor).Command = some ⟨a.start, a.stop, a.value⟩) →
      argContains cursor a →
      (∀ f ∈ (ParseLine line cursor).FlagsOrdered, a ∉ f.Args) →
      (∀ f ∈ (ParseLine line cursor).FlagsOrdered, ¬ flagContains cursor f) →
      (ParseLine line cursor).Section =
        closestLeftSpec cursor (ParseLine line cursor).FlagsOrdered) := by
  have hX := parseLoop_scan line cursor (line.length + 1) 0 {} {}
    (scanInv_init line cursor)
  have hCoreB := flushCore_coreB line.length _
    (parseLoop_inv line cursor (line.length + 1) 0 {} {}
      (coreB_empty line.length)).1
  have hSpans : ∀ f ∈ (flushCore
      (parseLoop line cursor (line.length + 1) 0 {} {}).1).FlagsOrdered,
      f.start ≤ f.stop := fun f hf => (hCoreB.1 f hf).1
  have hPW := exit_pairwise line cursor _ _ hX
  have hSep := exit_sep_final line cursor _ _ hX
  have hSnap := exit_snap line cursor _ _ hX
  have hUnowned := exit_unowned line cursor _ _ hX
  simp only [ParseLine]
  rcases hA : (flushCore
      (parseLoop line cursor (line.length + 1) 0 {} {}).1).Arguments
    with _ | ⟨a0, rest⟩ <;> simp only [hA]
  · refine ⟨?_, ?_, ?_, ?_⟩
    · intro hEx
      obtain ⟨f, hfm, hfc, hwalk⟩ := sectionWalk_finds cursor
        (flushCore
          (parseLoop line cursor (line.length + 1) 0 {} {}).1).FlagsOrdered.reverse
        (fun f hf => hSpans f (List.mem_reverse.mp hf))
        (List.pairwise_reverse.mpr hPW)
        (by
          obtain ⟨f, hf, hc⟩ := hEx
          exact ⟨f, List.mem_reverse.mpr hf, hc⟩)
      refine ⟨f, List.mem_reverse.mp hfm, hfc, ?_⟩
      rw [hwalk]
    · intro f hf a ha hca
      have hS := hSnap f hf a ha hca
      have hNC : ∀ g ∈ (flushCore
          (parseLoop line cursor (line.length + 1) 0 {} {}).1).FlagsOrdered,
          ¬ flagContains cursor g := by
        intro g hg hcg
        rcases hSep g hg f hf a ha with h' | h'
        · have hA2 : cursor ≤ (g.stop : Int) := hcg.2
          have hB2 : (a.start : Int) ≤ cursor := hca.1
          have hC2 : (g.stop : Int) < (a.start : Int) := by exact_mod_cast h'
          omega
        · have hA2 : (g.start : Int) ≤ cursor := hcg.1
          have hB2 : cursor ≤ (a.stop : Int) := hca.2
          have hC2 : (a.stop : Int) < (g.start : Int) := by exact_mod_cast h'
          omega
      have hwalk := sectionWalk_no_contain cursor
        (flushCore
          (parseLoop line cursor (line.length + 1) 0 {} {}).1).FlagsOrdered.reverse
        (fun g hg => hNC g (List.mem_reverse.mp hg))
      rw [hwalk]
      cases hfind : (flushCore
          (parseLoop line cursor
            (line.length + 1) 0 {} {}).1).FlagsOrdered.reverse.find?
          fun g => decide ((g.stop : Int) ≤ cursor) with
      | none => simpa using hS
      | some g => simp [hS]
    · intro hfoc
      obtain ⟨hS0, hNC⟩ := exit_focus_none line cursor _ _ hX hfoc
      have hwalk := sectionWalk_no_contain cursor
        (flushCore
          (parseLoop line cursor (line.length + 1) 0 {} {}).1).FlagsOrdered.reverse
        (fun g hg => hNC g (List.mem_reverse.mp hg))
      rw [closestLeftSpec_reverse, hwalk]
      cases hfind : (flushCore
          (parseLoop line cursor
            (line.length + 1) 0 {} {}).1).FlagsOrdered.reverse.find?
          fun g => decide ((g.stop : Int) ≤ cursor) with
      | none => simpa using hS0
      | some g => simp [hS0]
    · intro a hmem
      rcases hmem with h | h
      · exact absurd h (List.not_mem_nil a)
      · exact Option.noConfusion h
  · refine ⟨?_, ?_, ?_, ?_⟩
    · intro hEx
      obtain ⟨f, hfm, hfc, hwalk⟩ := sectionWalk_finds cursor
        (flushCore
          (parseLoop line cursor (line.length + 1) 0 {} {}).1).FlagsOrdered.reverse
        (fun f hf => hSpans f (List.mem_reverse.mp hf))
        (List.pairwise_reverse.mpr hPW)
        (by
          obtain ⟨f, hf, hc⟩ := hEx
          exact ⟨f, List.mem_reverse.mpr hf, hc⟩)
      refine ⟨f, List.mem_reverse.mp hfm, hfc, ?_⟩
      rw [hwalk]
    · intro f hf a ha hca
      have hS := hSnap f hf a ha hca
      have hNC : ∀ g ∈ (flushCore
          (parseLoop line cursor (line.length + 1) 0 {} {}).1).FlagsOrdered,
          ¬ flagContains cursor g := by
        intro g hg hcg
        rcases hSep g hg f hf a ha with h' | h'
        · have hA2 : cursor ≤ (g.stop : Int) := hcg.2
          have hB2 : (a.start : Int) ≤ cursor := hca.1
          have hC2 : (g.stop : Int) < (a.start : Int) := by exact_mod_cast h'
          omega
        · have hA2 : (g.start : Int) ≤ cursor := hcg.1
          have hB2 : cursor ≤ (a.stop : Int) := hca.2
          have hC2 : (a.stop : Int) < (g.start : Int) := by exact_mod_cast h'
          omega
      have hwalk := sectionWalk_no_contain cursor
        (flushCore
          (parseLoop line cursor (line.length + 1) 0 {} {}).1).FlagsOrdered.reverse
        (fun g hg => hNC g (List.mem_reverse.mp hg))
      rw [hwalk]
      cases hfind : (flushCore
          (parseLoop line cursor
            (line.length + 1) 0 {} {}).1).FlagsOrdered.reverse.find?
          fun g => decide ((g.stop : Int) ≤ cursor) with
      | none => simpa using hS
      | some g => simp [hS]
    · intro hfoc
      by_cases hcc : (a0.start : Int) ≤ cursor ∧ cursor ≤ (a0.stop : Int)
      · rw [if_pos hcc] at hfoc
        exact Option.noConfusion hfoc
      · rw [if_neg hcc] at hfoc
        obtain ⟨hS0, hNC⟩ := exit_focus_none line cursor _ _ hX hfoc
        have hwalk := sectionWalk_no_contain cursor
          (flushCore
            (parseLoop line cursor (line.length + 1) 0 {} {}).1).FlagsOrdered.reverse
          (fun g hg => hNC g (List.mem_reverse.mp hg))
        rw [closestLeftSpec_reverse, hwalk]
        cases hfind : (flushCore
            (parseLoop line cursor
              (line.length + 1) 0 {} {}).1).FlagsOrdered.reverse.find?
            fun g => decide ((g.stop : Int) ≤ cursor) with
        | none => simpa using hS0
        | some g => simp [hS0]
    · intro a hmem hca hown hNC
      have haE : a ∈ (flushCore
          (parseLoop line cursor (line.length + 1) 0 {} {}).1).Arguments := by
        rw [hA]
        rcases hmem with h | h
        · exact List.mem_cons_of_mem a0 h
        · simp only [Option.some.injEq, Cmd.mk.injEq] at h
          have ha0 : a0 = a := Argument.ext_fields a0 a h.1 h.2.1 h.2.2
          rw [ha0]
          exact List.mem_cons_self _ _
      have hS0 := hUnowned a haE hca hown
      have hwalk := sectionWalk_no_contain cursor
        (flushCore
          (parseLoop line cursor (line.length + 1) 0 {} {}).1).FlagsOrdered.reverse
        (fun g hg => hNC g (List.mem_reverse.mp hg))
      rw [closestLeftSpec_reverse, hwalk]
      cases hfind : (flushCore
          (parseLoop line cursor
            (line.length + 1) 0 {} {}).1).FlagsOrdered.reverse.find?
          fun g => decide ((g.stop : Int) ≤ cursor) with
      | none => simpa using hS0
      | some g => simp [hS0]

/-- Claim C5: Section resolution, for every line and cursor. (i) If the
cursor lies within the span of a stored flag, Section is a containing stored
flag (the exact-containment arm of the backward walk). (ii) If the cursor
lies within an argument owned by a flag, Section is the owning flag.
(iii) Otherwise — formalised as the two cases "Focus is nil, i.e. no
scanned token contained the cursor" and "the cursor hit an unowned
top-level argument (or the promoted Command) and no stored flag contains
it" — Section is the nearest flag whose end offset is at or before the
cursor (`closestLeftSpec`; unset if there is no such flag). (iv) At the
claim's concrete example "-a -b foo" with the cursor at offsets 6-8 inside
"foo", Section is the flag map's entry for "b", whose value is "b". -/
theorem C5_section_resolution (line : Str) (cursor : Int) :
    ((∃ f ∈ (ParseLine line cursor).FlagsOrdered, flagContains cursor f) →
      ∃ f ∈ (ParseLine line cursor).FlagsOrdered, flagContains cursor f ∧
        (ParseLine line cursor).Section = some f) ∧
    (∀ f ∈ (ParseLine line cursor).FlagsOrdered, ∀ a ∈ f.Args,
      argContains cursor a → (ParseLine line cursor).Section = some f) ∧
    ((ParseLine line cursor).Focus = none →
      (ParseLine line cursor).Section =
        closestLeftSpec cursor (ParseLine line cursor).FlagsOrdered) ∧
    (∀ a : Argument,
      (a ∈ (ParseLine line cursor).Arguments ∨
        (ParseLine line cursor).Command = some ⟨a.start, a.stop, a.value⟩) →
      argContains cursor a →
      (∀ f ∈ (ParseLine line cursor).FlagsOrdered, a ∉ f.Args) →
      (∀ f ∈ (ParseLine line cursor).FlagsOrdered, ¬ flagContains cursor f) →
      (ParseLine line cursor).Section =
        closestLeftSpec cursor (ParseLine line cursor).FlagsOrdered) ∧
    (6 ≤ cursor → cursor ≤ 8 → line = ("-a -b foo").toList →
      (ParseLine line cursor).Section =
        lookupAssoc (ParseLine line cursor).Flags ['b'] ∧
      ((ParseLine line cursor).Section).map Flag.value = some ['b']) := by
  obtain ⟨hA, hB, hC, hD⟩ := ParseLine_section_master line cursor
  refine ⟨hA, hB, hC, hD, ?_⟩
  intro h6 h8 hline
  subst hline
  interval_cases cursor <;> exact ⟨by decide, by decide⟩

/-- Claim C5 witness: the theorem applied at the line "-a -b foo" and cursor
7 (inside "foo", which is owned by flag "b"). -/
theorem C5_section_resolution_witness :
    (ParseLine ("-a -b foo").toList 7).Section =
      lookupAssoc (ParseLine ("-a -b foo").toList 7).Flags ['b'] ∧
    ((ParseLine ("-a -b foo").toList 7).Section).map Flag.value = some ['b'] :=
  (C5_section_resolution ("-a -b foo").toList 7).2.2.2.2
    (by decide) (by decide) rfl

end RemoteShell
